import Mathlib

/-!
# Qualified-name translation and wildcard expansion

A shallow embedding of `dbms/src/Interpreters/TranslateQualifiedNamesVisitor.cpp` and of
`dbms/include/DB/Common/HashTable/ClearableHashMap.h`, together with theorems about them.

Conventions of the embedding:

* a C++ exception is `Except.error (Fault.exception message code)`;
* indexing a vector out of range (undefined behaviour in C++) is
  `Except.error Fault.outOfBounds`;
* `std::unordered_set<String>` is a list used only through membership;
* a `UInt32` is a natural number, with `++` taken modulo `2^32`;
* functions of the repository that the translated file calls but does not
  define are fields of `Helpers`, so every general theorem holds for any
  implementation of them.
-/

namespace DB

/-! ## Data model -/

/-- Column names of a table, in declared order (`Names`). -/
abbrev Names := List String

/-- A set of names (`NameSet`, `std::unordered_set<String>`): only membership is observed. -/
abbrev NameSet := List String

/-- The error codes the translated file refers to. -/
inductive ErrorCode where
  | UNKNOWN_IDENTIFIER
  | UNKNOWN_ELEMENT_IN_AST
  | LOGICAL_ERROR
deriving DecidableEq, Repr

/-- Ways in which a visit does not complete. -/
inductive Fault where
  /-- The statement `throw Exception(message, code)`. -/
  | exception (message : String) (code : ErrorCode)
  /-- An access `v[i]` with `i` not below `v.size()`. -/
  | outOfBounds
deriving DecidableEq, Repr

/-- Modelled from the spec: the Table Descriptor (`DatabaseAndTableWithAlias`), identifying
one FROM/JOIN source by qualified name and alias (empty when there is none). -/
structure DatabaseAndTableWithAlias where
  database : String
  table : String
  alias_ : String
deriving DecidableEq, Repr

/-- One entry of the table scope: `std::pair<DatabaseAndTableWithAlias, Names>`. -/
abbrev TableWithColumnNames := DatabaseAndTableWithAlias × Names

/-- The reverse-alias map `std::unordered_map<String, std::vector<String>>`
(`AsteriskSemantic::RevertedAliases`), as an association list. -/
abbrev RevertedAliases := List (String × List String)

/-- Modelled from the spec: the `Identifier` node, a dotted name with its parts, an optional
alias (empty when absent), a resolved-table-index field (unset until resolution) and the flag
that marks identifiers which are not column references. -/
structure ASTIdentifier where
  name : String
  name_parts : List String
  alias_ : String
  membership : Option Nat
  special : Bool
deriving DecidableEq, Repr

/-- Modelled from the spec: the two-part constructor
`ASTIdentifier(std::vector<String>{table_name, column_name})`, a fully qualified identifier
(table name + column name) with dotted name, no alias and no membership. -/
def ASTIdentifier.ofTableAndColumn (table_name column_name : String) : ASTIdentifier :=
  { name := table_name ++ "." ++ column_name
    name_parts := [table_name, column_name]
    alias_ := ""
    membership := none
    special := false }

/-- Modelled from the spec: the AST node variants of the pass. `Function` carries the children
of its argument list; `Other` stands for every node kind the pass does not single out. -/
inductive AST where
  | Identifier (identifier : ASTIdentifier)
  | Asterisk (aliases : Option RevertedAliases)
  | QualifiedAsterisk (children : List AST) (aliases : Option RevertedAliases)
  | ColumnsMatcher (pattern : String) (aliases : Option RevertedAliases)
  | Function (name : String) (arguments : List AST) (alias_ : String)
  | ExpressionList (children : List AST)
  | Literal (value : String) (alias_ : String)
  | TableJoin (using_expression_list : Option (List AST)) (on_expression : Option AST)
  | SelectQuery (prewhere where_ having : Option AST) (join : Option AST)
  | TableExpression
  | SelectWithUnionQuery
  | Other (id : String) (alias_ : String) (children : List AST)

/-- The test `child->as<ASTAsterisk>() || child->as<ASTColumnsMatcher>() ||
child->as<ASTQualifiedAsterisk>()`. -/
def AST.isWildcard : AST → Bool
  | .Asterisk _ => true
  | .ColumnsMatcher _ _ => true
  | .QualifiedAsterisk _ _ => true
  | _ => false

/-- Modelled from the spec: the Resolution Context (`TranslateQualifiedNamesMatcher::Data`):
the primary table's own columns, the table scope, the USING column set, and the flag
selecting whether wildcard expansion is active for this traversal. -/
structure Data where
  source_columns : NameSet
  tables : List TableWithColumnNames
  join_using_columns : NameSet
  processAsterisks : Bool

/-- Modelled from the spec: `Data::hasColumn`, presence of a name among the primary scope's
own columns. -/
def Data.hasColumn (data : Data) (name : String) : Bool :=
  data.source_columns.contains name

/-- Functions of the repository that the translated file calls without defining them. -/
structure Helpers where
  /-- The call `table.getQualifiedNamePrefix(false)`. -/
  getQualifiedNamePrefix : DatabaseAndTableWithAlias → String
  /-- The call `DatabaseAndTableWithAlias(ident).satisfies(table, true)`. -/
  satisfies : AST → DatabaseAndTableWithAlias → Bool
  /-- The call `ASTColumnsMatcher::isColumnMatching` of the matcher with the given pattern. -/
  isColumnMatching : String → String → Bool
  /-- The call `ident->getAliasOrColumnName()`. -/
  getAliasOrColumnName : AST → String
  /-- The call `IdentifierSemantic::getColumnName(identifier)`. -/
  getColumnName : ASTIdentifier → Option String
  /-- The call `identifier.shortName()`. -/
  shortName : ASTIdentifier → String
  /-- The call `IdentifierSemantic::chooseTable(identifier, tables, table_pos, allow_ambiguous)`:
  `some table_pos` when it returns true. -/
  chooseTable : ASTIdentifier → List TableWithColumnNames → Bool → Option Nat
  /-- The call `IdentifierSemantic::setColumnLongName(identifier, table)`. -/
  setColumnLongName : ASTIdentifier → DatabaseAndTableWithAlias → ASTIdentifier
  /-- The call `IdentifierSemantic::setColumnShortName(identifier, table)`. -/
  setColumnShortName : ASTIdentifier → DatabaseAndTableWithAlias → ASTIdentifier
  /-- The call `tryGetIdentifierName(key)`: the name when the node is an identifier. -/
  tryGetIdentifierName : AST → Option String
  /-- The call `key->getColumnName()` of `IAST`. -/
  getColumnNameOfNode : AST → String
  /-- The call `key->tryGetAlias()`. -/
  tryGetAlias : AST → String
  /-- The call `key->getID()`. -/
  getID : AST → String
  /-- The call `restoreCompoundName()` on an identifier. -/
  restoreCompoundName : ASTIdentifier → ASTIdentifier

/-! ## The translated functions -/

/-- Modelled from the spec: `IdentifierSemantic::setMembership`, recording the owning table's
position on the node. -/
def setMembership (identifier : ASTIdentifier) (table_pos : Nat) : ASTIdentifier :=
  { identifier with membership := some table_pos }

/-- The function `TranslateQualifiedNamesMatcher::visit(ASTIdentifier &, ASTPtr &, Data &)`. -/
def visitIdentifier (h : Helpers) (data : Data) (identifier : ASTIdentifier) :
    Except Fault ASTIdentifier :=
  match h.getColumnName identifier with
  | some _ =>
    let short_name := h.shortName identifier
    let allow_ambiguous := data.join_using_columns.contains short_name
    match h.chooseTable identifier data.tables allow_ambiguous with
    | some table_pos =>
      let identifier1 := setMembership identifier table_pos
      match data.tables.get? table_pos with
      | none => .error .outOfBounds
      | some entry =>
        let table := entry.1
        if table_pos != 0 && data.hasColumn short_name then
          .ok (h.setColumnLongName identifier1 table)
        else
          .ok (h.setColumnShortName identifier1 table)
    | none => .ok identifier
  | none => .ok identifier

/-- The library call `Poco::toLower`: the letters `A` to `Z` go to lower case, every other
character stays. -/
def Poco.toLower (s : String) : String :=
  ⟨s.data.map Char.toLower⟩

/-- The function `TranslateQualifiedNamesMatcher::visit(ASTFunction &, const ASTPtr &, Data &)`,
on the function's name and the children of its argument list; the result is the new
children of the argument list. -/
def visitFunction (name : String) (func_arguments : List AST) : List AST :=
  let func_name_lowercase := Poco.toLower name
  if func_name_lowercase == "count" && func_arguments.length == 1 &&
      (match func_arguments.head? with
        | some (.Asterisk _) => true
        | _ => false) then
    []
  else
    func_arguments

/-- The function `TranslateQualifiedNamesMatcher::visit(const ASTQualifiedAsterisk &,
const ASTPtr & ast, Data &)`, on the children of `ast`. -/
def visitQualifiedAsterisk (h : Helpers) (data : Data) (children : List AST) :
    Except Fault Unit :=
  match children with
  | [ident] =>
    if data.tables.any (fun known_table => h.satisfies ident known_table.1) then
      .ok ()
    else
      .error (.exception ("Unknown qualified identifier: " ++ h.getAliasOrColumnName ident)
        .UNKNOWN_IDENTIFIER)
  | _ =>
    .error (.exception "Logical error: qualified asterisk must have exactly one child"
      .LOGICAL_ERROR)

/-- The loop over `(*aliases)[identifier->name]` in `addIdentifier`: pushes one clone per
alias and sets `added`. -/
def addAliased (identifier : ASTIdentifier) :
    List String → List AST × Bool → List AST × Bool
  | [], state => state
  | alias_ :: rest, (nodes, _) =>
    addAliased identifier rest (nodes ++ [AST.Identifier { identifier with alias_ := alias_ }], true)

/-- The static function `addIdentifier`. -/
def addIdentifier (h : Helpers) (nodes : List AST) (table : DatabaseAndTableWithAlias)
    (column_name : String) (aliases : Option RevertedAliases) : List AST :=
  let table_name := h.getQualifiedNamePrefix table
  let identifier := ASTIdentifier.ofTableAndColumn table_name column_name
  let state : List AST × Bool :=
    match aliases with
    | some map =>
      match map.lookup identifier.name with
      | some registered => addAliased identifier registered (nodes, false)
      | none => (nodes, false)
    | none => (nodes, false)
  if !state.2 then state.1 ++ [AST.Identifier identifier] else state.1

/-- The inner loop `for (column_name : table_columns)` of the plain-asterisk branch. -/
def asteriskColumns (h : Helpers) (data : Data) (aliases : Option RevertedAliases)
    (table : DatabaseAndTableWithAlias) (first_table : Bool) : Names → List AST → List AST
  | [], nodes => nodes
  | column_name :: rest, nodes =>
    if first_table || !data.join_using_columns.contains column_name then
      asteriskColumns h data aliases table first_table rest
        (addIdentifier h nodes table column_name aliases)
    else
      asteriskColumns h data aliases table first_table rest nodes

/-- The outer loop `for ([table, table_columns] : tables_with_columns)` of the plain-asterisk
branch, with the local `first_table`. -/
def asteriskTables (h : Helpers) (data : Data) (aliases : Option RevertedAliases) :
    List TableWithColumnNames → Bool → List AST → List AST
  | [], _, nodes => nodes
  | (table, table_columns) :: rest, first_table, nodes =>
    asteriskTables h data aliases rest false
      (asteriskColumns h data aliases table first_table table_columns nodes)

/-- The inner loop of the `ASTColumnsMatcher` branch. -/
def matcherColumns (h : Helpers) (data : Data) (pattern : String)
    (aliases : Option RevertedAliases) (table : DatabaseAndTableWithAlias)
    (first_table : Bool) : Names → List AST → List AST
  | [], nodes => nodes
  | column_name :: rest, nodes =>
    if h.isColumnMatching pattern column_name &&
        (first_table || !data.join_using_columns.contains column_name) then
      matcherColumns h data pattern aliases table first_table rest
        (addIdentifier h nodes table column_name aliases)
    else
      matcherColumns h data pattern aliases table first_table rest nodes

/-- The outer loop of the `ASTColumnsMatcher` branch. -/
def matcherTables (h : Helpers) (data : Data) (pattern : String)
    (aliases : Option RevertedAliases) :
    List TableWithColumnNames → Bool → List AST → List AST
  | [], _, nodes => nodes
  | (table, table_columns) :: rest, first_table, nodes =>
    matcherTables h data pattern aliases rest false
      (matcherColumns h data pattern aliases table first_table table_columns nodes)

/-- The inner loop of the `ASTQualifiedAsterisk` branch: every column of the matching table. -/
def qualifiedColumns (h : Helpers) (aliases : Option RevertedAliases)
    (table : DatabaseAndTableWithAlias) : Names → List AST → List AST
  | [], nodes => nodes
  | column_name :: rest, nodes =>
    qualifiedColumns h aliases table rest (addIdentifier h nodes table column_name aliases)

/-- The outer loop of the `ASTQualifiedAsterisk` branch: stops (`break`) at the first table
the reference satisfies. -/
def qualifiedTables (h : Helpers) (ident : AST) (aliases : Option RevertedAliases) :
    List TableWithColumnNames → List AST → List AST
  | [], nodes => nodes
  | (table, table_columns) :: rest, nodes =>
    if h.satisfies ident table then
      qualifiedColumns h aliases table table_columns nodes
    else
      qualifiedTables h ident aliases rest nodes

/-- The first loop of `visit(ASTExpressionList &)`: computes `has_asterisk`, stopping at the
first wildcard child. -/
def hasAsterisk (h : Helpers) (data : Data) : List AST → Except Fault Bool
  | [] => .ok false
  | child :: rest =>
    match child with
    | .Asterisk _ | .ColumnsMatcher _ _ =>
      if data.tables.isEmpty then
        .error (.exception "An asterisk cannot be replaced with empty columns." .LOGICAL_ERROR)
      else
        .ok true
    | .QualifiedAsterisk children _ =>
      match visitQualifiedAsterisk h data children with
      | .error e => .error e
      | .ok _ => .ok true
    | _ => hasAsterisk h data rest

/-- The body of the second loop of `visit(ASTExpressionList &)` for one element of
`old_children`; `nodes` is `node.children`. -/
def rewriteChild (h : Helpers) (data : Data) (nodes : List AST) (child : AST) :
    Except Fault (List AST) :=
  match child with
  | .Asterisk aliases => .ok (asteriskTables h data aliases data.tables true nodes)
  | .ColumnsMatcher pattern aliases =>
    .ok (matcherTables h data pattern aliases data.tables true nodes)
  | .QualifiedAsterisk children aliases =>
    match children with
    | [] => .error .outOfBounds
    | ident :: _ => .ok (qualifiedTables h ident aliases data.tables nodes)
  | _ => .ok (nodes ++ [child])

/-- The second loop of `visit(ASTExpressionList &)`, over `old_children`. -/
def rewriteChildren (h : Helpers) (data : Data) : List AST → List AST → Except Fault (List AST)
  | [], nodes => .ok nodes
  | child :: rest, nodes =>
    match rewriteChild h data nodes child with
    | .error e => .error e
    | .ok nodes1 => rewriteChildren h data rest nodes1

/-- The function `TranslateQualifiedNamesMatcher::visit(ASTExpressionList &, const ASTPtr &,
Data &)`: from `node.children` before the call to `node.children` after it. -/
def visitExpressionList (h : Helpers) (data : Data) (children : List AST) :
    Except Fault (List AST) :=
  if data.processAsterisks then
    match hasAsterisk h data children with
    | .error e => .error e
    | .ok has_asterisk =>
      if has_asterisk then
        -- old_children.swap(node.children)
        rewriteChildren h data children []
      else
        rewriteChildren h data [] children
  else
    rewriteChildren h data [] children

/-- The function `TranslateQualifiedNamesMatcher::needChildVisit(ASTPtr & node,
const ASTPtr & child)`. -/
def needChildVisit (node child : AST) : Bool :=
  match child with
  | .TableExpression | .SelectWithUnionQuery => false
  | _ =>
    match node with
    | .QualifiedAsterisk _ _ | .TableJoin _ _ => false
    | _ => true

/-- The second loop of `visit(ASTExpressionList &)` with `node.children` followed to the
point where the loop stops: the children at that point, and the fault if there is one. -/
def rewriteChildrenState (h : Helpers) (data : Data) :
    List AST → List AST → List AST × Option Fault
  | [], nodes => (nodes, none)
  | child :: rest, nodes =>
    match rewriteChild h data nodes child with
    | .error e => (nodes, some e)
    | .ok nodes1 => rewriteChildrenState h data rest nodes1

/-- The function `visit(ASTExpressionList &)` with `node.children` followed to the point
where the visit stops: the children at that point, and the fault if there is one. -/
def visitExpressionListState (h : Helpers) (data : Data) (children : List AST) :
    List AST × Option Fault :=
  if data.processAsterisks then
    match hasAsterisk h data children with
    | .error e => (children, some e)
    | .ok has_asterisk =>
      if has_asterisk then
        rewriteChildrenState h data children []
      else
        rewriteChildrenState h data [] children
  else
    rewriteChildrenState h data [] children

/-- The test `key->as<ASTLiteral>()`. -/
def AST.isLiteral : AST → Bool
  | .Literal _ _ => true
  | _ => false

/-- The loop `for (const auto & key : keys.children)` of `extractJoinUsingColumns`, on
`data.join_using_columns`: the set when the loop stops, and the fault if it throws.
The call `insert` puts the name in front. -/
def extractKeys (h : Helpers) : List AST → NameSet → NameSet × Option Fault
  | [], join_using_columns => (join_using_columns, none)
  | key :: rest, join_using_columns =>
    match h.tryGetIdentifierName key with
    | some opt_column => extractKeys h rest (opt_column :: join_using_columns)
    | none =>
      if key.isLiteral then
        extractKeys h rest (h.getColumnNameOfNode key :: join_using_columns)
      else
        let alias_ := h.tryGetAlias key
        if alias_.isEmpty then
          (join_using_columns,
            some (.exception ("Logical error: expected identifier or alias, got: " ++ h.getID key)
              .LOGICAL_ERROR))
        else
          extractKeys h rest (alias_ :: join_using_columns)

/-- The function `TranslateQualifiedNamesMatcher::extractJoinUsingColumns(const ASTPtr ast,
Data & data)`, on the field `using_expression_list` of the `ASTTableJoin` (the children of
the list, or `none` when the join has no USING list): the context after the call, and the
fault if it throws. -/
def extractJoinUsingColumns (h : Helpers) (using_expression_list : Option (List AST))
    (data : Data) : Data × Option Fault :=
  match using_expression_list with
  | some keys =>
    let state := extractKeys h keys data.join_using_columns
    ({ data with join_using_columns := state.1 }, state.2)
  | none => (data, none)

/-- Modelled from the spec: `IdentifierSemantic::getMembership`, the recorded table
membership of an identifier, unset until resolution. -/
def getMembership (identifier : ASTIdentifier) : Option Nat :=
  identifier.membership

/-- The state after `RestoreQualifiedNamesData::visit`: the node the reference `identifier`
denotes, the node the slot `ast` points to, and whether the slot was given a newly made
node. -/
structure RestoreState where
  identifier : ASTIdentifier
  ast : AST
  replaced : Bool

/-- The function `RestoreQualifiedNamesData::visit(ASTIdentifier & identifier, ASTPtr & ast)`.
The clone has the content of `identifier`; `restoreCompoundName` is called on the clone. -/
def RestoreQualifiedNamesData.visit (h : Helpers) (identifier : ASTIdentifier) (ast : AST) :
    RestoreState :=
  match h.getColumnName identifier with
  | some _ =>
    match getMembership identifier with
    | some _ =>
      let clone := identifier
      { identifier := identifier, ast := .Identifier (h.restoreCompoundName clone),
        replaced := true }
    | none => { identifier := identifier, ast := ast, replaced := false }
  | none => { identifier := identifier, ast := ast, replaced := false }

/-! ## A concrete instance of the helper functions, for the scenarios -/

/-- Modelled from the spec: `DatabaseAndTableWithAlias::getQualifiedNamePrefix(false)`, the name
under which the table's columns are qualified: its alias when it has one (scenario
`orders` alias `o` gives `o.id`), otherwise its table name. -/
def qualifiedNamePrefix (table : DatabaseAndTableWithAlias) : String :=
  if table.alias_.isEmpty then table.table else table.alias_

/-- Modelled from the spec: `ASTIdentifier::shortName`, the unqualified name: the last part
of a dotted name, or the whole name for a bare one. -/
def identifierShortName (identifier : ASTIdentifier) : String :=
  identifier.name_parts.getLast?.getD identifier.name

/-- Modelled from the spec: `tableSatisfies(descriptor, reference, acceptAlias)` with
`acceptAlias` true; the reference (a bare name or a dotted database-qualified name) matches
if its name equals the descriptor's table name or the descriptor's alias. Names are compared
as written. -/
def tableSatisfies (reference : AST) (descriptor : DatabaseAndTableWithAlias) : Bool :=
  match reference with
  | .Identifier identifier =>
    identifierShortName identifier == descriptor.table ||
      identifierShortName identifier == descriptor.alias_
  | _ => false

/-- Modelled from the spec: `IAST::getAliasOrColumnName`, the literal name of a reference for
user display: the alias when there is one, otherwise the name. -/
def aliasOrColumnName : AST → String
  | .Identifier identifier =>
    if identifier.alias_.isEmpty then identifier.name else identifier.alias_
  | .Function name _ alias_ => if alias_.isEmpty then name else alias_
  | .Literal value alias_ => if alias_.isEmpty then value else alias_
  | .Other id alias_ _ => if alias_.isEmpty then id else alias_
  | _ => ""

/-- Modelled from the spec: `IdentifierSemantic::getColumnName`, the name of an identifier
that denotes a column reference. -/
def identifierColumnName (identifier : ASTIdentifier) : Option String :=
  if identifier.special then none else some identifier.name

/-- Positions, from `pos` on, of the tables whose column list contains `short_name`. -/
def tablesWithColumn (short_name : String) : List TableWithColumnNames → Nat → List Nat
  | [], _ => []
  | (_, table_columns) :: rest, pos =>
    if table_columns.contains short_name then pos :: tablesWithColumn short_name rest (pos + 1)
    else tablesWithColumn short_name rest (pos + 1)

/-- Modelled from the spec: `IdentifierSemantic::chooseTable`, step 2 of the Identifier
Resolver: find a table in scope whose column list contains the short name, scanning in scope
order; the first match wins when `allow_ambiguous` is true, otherwise the match must be
unique. -/
def chooseTableByColumn (identifier : ASTIdentifier) (tables : List TableWithColumnNames)
    (allow_ambiguous : Bool) : Option Nat :=
  match tablesWithColumn (identifierShortName identifier) tables 0 with
  | [] => none
  | [table_pos] => some table_pos
  | table_pos :: _ => if allow_ambiguous then some table_pos else none

/-- Modelled from the spec: `IdentifierSemantic::setColumnLongName`, the display form
qualified with the table name. -/
def columnLongName (identifier : ASTIdentifier) (table : DatabaseAndTableWithAlias) :
    ASTIdentifier :=
  { identifier with
    name := qualifiedNamePrefix table ++ "." ++ identifierShortName identifier
    name_parts := [qualifiedNamePrefix table, identifierShortName identifier] }

/-- Modelled from the spec: `IdentifierSemantic::setColumnShortName`, the short, unqualified
display form. -/
def columnShortName (identifier : ASTIdentifier) (_table : DatabaseAndTableWithAlias) :
    ASTIdentifier :=
  { identifier with name := identifierShortName identifier }

/-- Modelled from the spec: `tryGetIdentifierName`, the short name that a USING entry which
is itself an identifier contributes. -/
def identifierNameOfNode : AST → Option String
  | .Identifier identifier => some (identifierShortName identifier)
  | _ => none

/-- Modelled from the spec: `IAST::tryGetAlias`, the explicit alias of a node, empty when it
has none. -/
def aliasOfNode : AST → String
  | .Identifier identifier => identifier.alias_
  | .Function _ _ alias_ => alias_
  | .Literal _ alias_ => alias_
  | .Other _ alias_ _ => alias_
  | _ => ""

/-- Modelled from the spec: `IAST::getColumnName`, the rendered column name of a node; for a
literal it is the rendered value. -/
def columnNameOfNode : AST → String
  | .Identifier identifier => identifier.name
  | .Function name _ _ => name
  | .Literal value _ => value
  | .Other id _ _ => id
  | _ => ""

/-- Modelled from the spec: `IAST::getID`, a name of the node for error messages. -/
def idOfNode : AST → String
  | .Identifier identifier => "Identifier_" ++ identifier.name
  | .Asterisk _ => "Asterisk"
  | .QualifiedAsterisk _ _ => "QualifiedAsterisk"
  | .ColumnsMatcher _ _ => "ColumnsMatcher"
  | .Function name _ _ => "Function_" ++ name
  | .ExpressionList _ => "ExpressionList"
  | .Literal value _ => "Literal_" ++ value
  | .TableJoin _ _ => "TableJoin"
  | .SelectQuery _ _ _ _ => "SelectQuery"
  | .TableExpression => "TableExpression"
  | .SelectWithUnionQuery => "SelectWithUnionQuery"
  | .Other id _ _ => id

/-- Modelled from the spec: `ASTIdentifier::restoreCompoundName`, rebuilding the compound
(dotted) display form of an identifier from its name parts. -/
def compoundName (identifier : ASTIdentifier) : ASTIdentifier :=
  if identifier.name_parts.isEmpty then identifier
  else { identifier with name := String.intercalate "." identifier.name_parts }

/-- The helper functions as the spec describes them; the pattern engine of
`ASTColumnsMatcher` stays a parameter. -/
def specHelpers (isColumnMatching : String → String → Bool) : Helpers :=
  { getQualifiedNamePrefix := qualifiedNamePrefix
    satisfies := tableSatisfies
    isColumnMatching := isColumnMatching
    getAliasOrColumnName := aliasOrColumnName
    getColumnName := identifierColumnName
    shortName := identifierShortName
    chooseTable := chooseTableByColumn
    setColumnLongName := columnLongName
    setColumnShortName := columnShortName
    tryGetIdentifierName := identifierNameOfNode
    getColumnNameOfNode := columnNameOfNode
    tryGetAlias := aliasOfNode
    getID := idOfNode
    restoreCompoundName := compoundName }

/-- Helper functions of the scenarios: every pattern accepts every column. -/
def scenarioHelpers : Helpers := specHelpers (fun _ _ => true)

/-- A table descriptor with a name only. -/
def tableNamed (name : String) : DatabaseAndTableWithAlias :=
  { database := "", table := name, alias_ := "" }

/-- A table descriptor with a name and an alias. -/
def tableAliased (name alias_ : String) : DatabaseAndTableWithAlias :=
  { database := "", table := name, alias_ := alias_ }

/-- A bare identifier as the parser builds it. -/
def bareIdentifier (name : String) : ASTIdentifier :=
  { name := name, name_parts := [], alias_ := "", membership := none, special := false }

/-- The emitted node for a column of a table: `Identifier(table_name, column_name)`. -/
def qualifiedIdentifier (table_name column_name : String) : AST :=
  .Identifier (ASTIdentifier.ofTableAndColumn table_name column_name)

/-- The nodes a plain asterisk emits for the tables after the first one. -/
def laterTables (h : Helpers) (data : Data) (aliases : Option RevertedAliases)
    (tables : List TableWithColumnNames) : List AST :=
  tables.flatMap (fun entry =>
    (entry.2.filter (fun c => !data.join_using_columns.contains c)).flatMap
      (fun c => addIdentifier h [] entry.1 c aliases))

/-- The column an emitted node stands for: the second name part of an identifier. -/
def AST.emittedColumn : AST → Option String
  | .Identifier identifier => identifier.name_parts.get? 1
  | _ => none

/-- Whether a node is an identifier emitted for the column `column_name`. -/
def AST.isColumn (column_name : String) (node : AST) : Bool :=
  node.emittedColumn == some column_name

/-- The scope `orders(id, total)`, `customers(id, name)`. -/
def ordersCustomers : List TableWithColumnNames :=
  [(tableNamed "orders", ["id", "total"]), (tableNamed "customers", ["id", "name"])]

/-- The scope `t1(a)`, `t2(id)`: only the second table has the column `id`. -/
def onlyLaterTableHasId : List TableWithColumnNames :=
  [(tableNamed "t1", ["a"]), (tableNamed "t2", ["id"])]

/-- The scope `customers` alias `c` `(id, name)`, `orders` alias `o` `(id, total)`. -/
def customersOrdersAliased : List TableWithColumnNames :=
  [(tableAliased "customers" "c", ["id", "name"]), (tableAliased "orders" "o", ["id", "total"])]

/-- The qualified asterisk `reference.*` as the parser builds it. -/
def qualifiedAsterisk (reference : String) : AST :=
  .QualifiedAsterisk [.Identifier (bareIdentifier reference)] none

/-- The name a USING entry contributes, as the Join-Using Collector is specified: the name of
an entry that is an identifier (whether or not it has an alias), the rendered column name of a
literal, the alias of any other entry that has one; no name for another entry without alias. -/
def usingKeyName (h : Helpers) (key : AST) : Option String :=
  match h.tryGetIdentifierName key with
  | some name => some name
  | none =>
    if key.isLiteral then some (h.getColumnNameOfNode key)
    else if (h.tryGetAlias key).isEmpty then none
    else some (h.tryGetAlias key)

/-- The aliases a reverse-alias map registers under a qualified name: none when the map is
absent or has no such key. -/
def registeredAliases (aliases : Option RevertedAliases) (name : String) : List String :=
  match aliases with
  | some map => (map.lookup name).getD []
  | none => []

/-- Whether the pattern of a columns matcher accepts the column an emitted node stands for. -/
def AST.columnMatches (h : Helpers) (pattern : String) (node : AST) : Bool :=
  match node.emittedColumn with
  | some column_name => h.isColumnMatching pattern column_name
  | none => false

/-- A node made by the expansion: an identifier with exactly two name parts. -/
def AST.isTwoPartIdentifier : AST → Bool
  | .Identifier identifier => identifier.name_parts.length == 2
  | _ => false

/-- The USING list `id AS x, 1, f() AS k`: an identifier that also has an alias, a literal
and an aliased function. -/
def usingIdLiteralAliased : List AST :=
  [.Identifier { name := "id", name_parts := [], alias_ := "x", membership := none,
                 special := false },
    .Literal "1" "", .Function "f" [] "k"]

/-- The expansion of a columns matcher as the spec words it: the expansion of the plain
asterisk, restricted to the nodes whose column satisfies the pattern. -/
def filteredAsterisk (h : Helpers) (data : Data) (pattern : String)
    (aliases : Option RevertedAliases) : Except Fault (List AST) :=
  match visitExpressionList h data [AST.Asterisk aliases] with
  | .ok all => .ok (all.filter (AST.columnMatches h pattern))
  | .error e => .error e

/-- Helper functions with a pattern engine that accepts exactly the column the pattern
names. -/
def exactNameHelpers : Helpers := specHelpers (fun pattern column_name => pattern == column_name)

/-- The context of the scenario `orders(id, total)`, `customers(id, name)`, `USING (id)`. -/
def ordersCustomersUsingId : Data :=
  { source_columns := ["id", "total"], tables := ordersCustomers,
    join_using_columns := ["id"], processAsterisks := true }

/-! ## The identifier visit with its context, and the clearable hash map -/

/-- The state after `visit(ASTIdentifier &, ASTPtr &, Data &)`: the identifier node, the
context `data`, and whether the tree slot (the unnamed `ASTPtr &`) was given another node. -/
structure IdentifierVisitState where
  identifier : ASTIdentifier
  data : Data
  replaced : Bool

/-- The function `visit(ASTIdentifier &, ASTPtr &, Data &)` with everything it is handed by
reference: the body has no assignment to `data` and cannot name the slot, so both come out
as they went in. -/
def visitIdentifierState (h : Helpers) (data : Data) (identifier : ASTIdentifier) :
    Except Fault IdentifierVisitState :=
  match visitIdentifier h data identifier with
  | .ok identifier1 => .ok { identifier := identifier1, data := data, replaced := false }
  | .error e => .error e

/-- The number of values of `UInt32`. -/
def UInt32.modulus : Nat := 4294967296

/-- The struct `ClearableHashMapState`: the `UInt32 version`, as a natural number below
`2^32`; a new state has version 1. -/
structure ClearableHashMapState where
  version : Nat := 1
deriving DecidableEq, Repr

/-- The struct `ClearableHashMapCell<Key, Mapped, Hash>`: the `value` of the base cell and
the `UInt32 version`. -/
structure ClearableHashMapCell (Key Mapped : Type) where
  value : Key × Mapped
  version : Nat
deriving DecidableEq, Repr

/-- The constructor `ClearableHashMapCell(const Key & key_, const State & state)`. -/
def ClearableHashMapCell.ofKey {Key Mapped : Type} [Inhabited Mapped] (key_ : Key)
    (state : ClearableHashMapState) : ClearableHashMapCell Key Mapped :=
  { value := (key_, default), version := state.version }

/-- The constructor `ClearableHashMapCell(const value_type & value_, const State & state)`. -/
def ClearableHashMapCell.ofValue {Key Mapped : Type} (value_ : Key × Mapped)
    (state : ClearableHashMapState) : ClearableHashMapCell Key Mapped :=
  { value := value_, version := state.version }

/-- The method `bool isZero(const State & state) const`. -/
def ClearableHashMapCell.isZero {Key Mapped : Type} (cell : ClearableHashMapCell Key Mapped)
    (state : ClearableHashMapState) : Bool :=
  cell.version != state.version

/-- The static method `isZero(const Key & key, const State & state)`. -/
def ClearableHashMapCell.isZeroKey {Key : Type} (_key : Key) (_state : ClearableHashMapState) :
    Bool :=
  false

/-- The method `void setZero()`. -/
def ClearableHashMapCell.setZero {Key Mapped : Type} (cell : ClearableHashMapCell Key Mapped) :
    ClearableHashMapCell Key Mapped :=
  { cell with version := 0 }

/-- The members of `ClearableHashMap` that `clear()` touches: the state it inherits
(`this->version`) and the element count `this->m_size`. -/
structure ClearableHashMap where
  state : ClearableHashMapState
  m_size : Nat
deriving DecidableEq, Repr

/-- The method `ClearableHashMap::clear()`: `++this->version` on a `UInt32`, then
`this->m_size = 0`. -/
def ClearableHashMap.clear (table : ClearableHashMap) : ClearableHashMap :=
  { state := { version := (table.state.version + 1) % UInt32.modulus }, m_size := 0 }

/-- A newly constructed table: the state has version 1 and there is no element. -/
def ClearableHashMap.initial : ClearableHashMap :=
  { state := { version := 1 }, m_size := 0 }

/-- The table after `n` calls of `clear()`. -/
def ClearableHashMap.clearTimes : Nat → ClearableHashMap → ClearableHashMap
  | 0, table => table
  | n + 1, table => (ClearableHashMap.clearTimes n table).clear

/-- A node the expansion makes for the scope: the two-part identifier (prefix of a table of
the scope, name of a column of that table) that the constructor builds, with or without an
alias. -/
def AST.IsColumnOfScope (h : Helpers) (data : Data) (node : AST) : Prop :=
  ∃ entry ∈ data.tables, ∃ column_name ∈ entry.2, ∃ alias_ : String,
    node = AST.Identifier
      { ASTIdentifier.ofTableAndColumn (h.getQualifiedNamePrefix entry.1) column_name
        with alias_ := alias_ }

/-- The context with the scope `orders` alias `o` `(id, total)` and no USING column. -/
def ordersAliased : Data :=
  { source_columns := ["id", "total"], tables := [(tableAliased "orders" "o", ["id", "total"])],
    join_using_columns := [], processAsterisks := true }

/-- The select list `x, *, o.*`. -/
def listWithTwoWildcards : List AST :=
  [AST.Identifier (bareIdentifier "x"), AST.Asterisk none, qualifiedAsterisk "o"]

/-- The expansion of `x, *, o.*` on the scope `orders` alias `o` `(id, total)`. -/
def listWithTwoWildcardsExpanded : List AST :=
  [AST.Identifier (bareIdentifier "x"), qualifiedIdentifier "o" "id",
    qualifiedIdentifier "o" "total", qualifiedIdentifier "o" "id",
    qualifiedIdentifier "o" "total"]

/-! ## Lemmas on the loops -/

section Loops

variable (h : Helpers) (data : Data)

theorem addAliased_eq (identifier : ASTIdentifier) (registered : List String)
    (nodes : List AST) (added : Bool) :
    addAliased identifier registered (nodes, added) =
      (nodes ++ registered.map (fun a => AST.Identifier { identifier with alias_ := a }),
        added || !registered.isEmpty) := by
  induction registered generalizing nodes added with
  | nil => simp [addAliased]
  | cons a rest ih => simp [addAliased, ih]

/-- What `addIdentifier` pushes does not depend on the nodes already in the output. -/
theorem addIdentifier_append (nodes : List AST) (table : DatabaseAndTableWithAlias)
    (column_name : String) (aliases : Option RevertedAliases) :
    addIdentifier h nodes table column_name aliases =
      nodes ++ addIdentifier h [] table column_name aliases := by
  unfold addIdentifier
  cases aliases with
  | none => simp
  | some map =>
    simp only
    cases map.lookup (ASTIdentifier.ofTableAndColumn (h.getQualifiedNamePrefix table)
        column_name).name with
    | none => simp
    | some registered =>
      simp only [addAliased_eq]
      cases registered <;> simp

/-- Without a reverse-alias map `addIdentifier` pushes the one qualified identifier. -/
theorem addIdentifier_none (nodes : List AST) (table : DatabaseAndTableWithAlias)
    (column_name : String) :
    addIdentifier h nodes table column_name none =
      nodes ++ [qualifiedIdentifier (h.getQualifiedNamePrefix table) column_name] := by
  simp [addIdentifier, qualifiedIdentifier]

theorem asteriskColumns_eq (aliases : Option RevertedAliases)
    (table : DatabaseAndTableWithAlias) (first_table : Bool) (columns : Names)
    (nodes : List AST) :
    asteriskColumns h data aliases table first_table columns nodes =
      nodes ++ (columns.filter
          (fun c => first_table || !data.join_using_columns.contains c)).flatMap
        (fun c => addIdentifier h [] table c aliases) := by
  induction columns generalizing nodes with
  | nil => simp [asteriskColumns]
  | cons c rest ih =>
    unfold asteriskColumns
    cases hc : (first_table || !data.join_using_columns.contains c) with
    | true =>
      rw [if_pos rfl, ih, addIdentifier_append]
      simp only [List.filter, hc, List.flatMap_cons, List.append_assoc]
    | false =>
      rw [if_neg (by simp), ih]
      simp only [List.filter, hc]

theorem asteriskTables_false (aliases : Option RevertedAliases)
    (tables : List TableWithColumnNames) (nodes : List AST) :
    asteriskTables h data aliases tables false nodes =
      nodes ++ laterTables h data aliases tables := by
  induction tables generalizing nodes with
  | nil => simp [asteriskTables, laterTables]
  | cons entry rest ih =>
    obtain ⟨table, columns⟩ := entry
    simp only [asteriskTables, ih, asteriskColumns_eq, laterTables, List.flatMap_cons,
      Bool.false_or, List.append_assoc]

theorem asteriskTables_true (aliases : Option RevertedAliases)
    (table : DatabaseAndTableWithAlias) (columns : Names)
    (rest : List TableWithColumnNames) (nodes : List AST) :
    asteriskTables h data aliases ((table, columns) :: rest) true nodes =
      nodes ++ (columns.flatMap (fun c => addIdentifier h [] table c aliases) ++
        laterTables h data aliases rest) := by
  simp [asteriskTables, asteriskTables_false, asteriskColumns_eq, List.append_assoc]

theorem asteriskTables_append (aliases : Option RevertedAliases)
    (tables : List TableWithColumnNames) (first_table : Bool) (nodes : List AST) :
    asteriskTables h data aliases tables first_table nodes =
      nodes ++ asteriskTables h data aliases tables first_table [] := by
  cases first_table with
  | false => rw [asteriskTables_false, asteriskTables_false]; simp
  | true =>
    cases tables with
    | nil => simp [asteriskTables]
    | cons entry rest =>
      obtain ⟨table, columns⟩ := entry
      rw [asteriskTables_true, asteriskTables_true]; simp

theorem matcherColumns_append (pattern : String) (aliases : Option RevertedAliases)
    (table : DatabaseAndTableWithAlias) (first_table : Bool) (columns : Names)
    (nodes : List AST) :
    matcherColumns h data pattern aliases table first_table columns nodes =
      nodes ++ matcherColumns h data pattern aliases table first_table columns [] := by
  induction columns generalizing nodes with
  | nil => simp [matcherColumns]
  | cons c rest ih =>
    unfold matcherColumns
    split
    · rw [ih, ih (addIdentifier h [] table c aliases), addIdentifier_append]
      simp [List.append_assoc]
    · exact ih nodes

theorem matcherTables_append (pattern : String) (aliases : Option RevertedAliases)
    (tables : List TableWithColumnNames) (first_table : Bool) (nodes : List AST) :
    matcherTables h data pattern aliases tables first_table nodes =
      nodes ++ matcherTables h data pattern aliases tables first_table [] := by
  induction tables generalizing nodes first_table with
  | nil => simp [matcherTables]
  | cons entry rest ih =>
    obtain ⟨table, columns⟩ := entry
    simp only [matcherTables]
    rw [ih, ih false (matcherColumns h data pattern aliases table first_table columns []),
      matcherColumns_append]
    simp [List.append_assoc]

theorem qualifiedColumns_eq (aliases : Option RevertedAliases)
    (table : DatabaseAndTableWithAlias) (columns : Names) (nodes : List AST) :
    qualifiedColumns h aliases table columns nodes =
      nodes ++ columns.flatMap (fun c => addIdentifier h [] table c aliases) := by
  induction columns generalizing nodes with
  | nil => simp [qualifiedColumns]
  | cons c rest ih =>
    simp only [qualifiedColumns, ih, List.flatMap_cons]
    rw [addIdentifier_append]
    simp [List.append_assoc]

theorem qualifiedTables_append (ident : AST) (aliases : Option RevertedAliases)
    (tables : List TableWithColumnNames) (nodes : List AST) :
    qualifiedTables h ident aliases tables nodes =
      nodes ++ qualifiedTables h ident aliases tables [] := by
  induction tables with
  | nil => simp [qualifiedTables]
  | cons entry rest ih =>
    obtain ⟨table, columns⟩ := entry
    simp only [qualifiedTables]
    split
    · rw [qualifiedColumns_eq, qualifiedColumns_eq]; simp
    · exact ih

/-- The loop of the qualified asterisk emits the columns of the first table the reference
satisfies. -/
theorem qualifiedTables_find (ident : AST) (aliases : Option RevertedAliases)
    (tables : List TableWithColumnNames) (nodes : List AST) :
    qualifiedTables h ident aliases tables nodes =
      match tables.find? (fun entry => h.satisfies ident entry.1) with
      | some entry => nodes ++ entry.2.flatMap (fun c => addIdentifier h [] entry.1 c aliases)
      | none => nodes := by
  induction tables with
  | nil => simp [qualifiedTables]
  | cons entry rest ih =>
    obtain ⟨table, columns⟩ := entry
    simp only [qualifiedTables, List.find?_cons]
    by_cases hs : h.satisfies ident table = true
    · simp [hs, qualifiedColumns_eq]
    · simp only [hs, Bool.false_eq_true, if_false]
      simp only [Bool.not_eq_true] at hs
      simp [hs, ih]

end Loops

/-! ## Lemmas on the rewriting of an expression list -/

section Rewrite

variable (h : Helpers) (data : Data)

theorem rewriteChild_of_not_wildcard (nodes : List AST) (child : AST)
    (hc : child.isWildcard = false) :
    rewriteChild h data nodes child = .ok (nodes ++ [child]) := by
  cases child <;> simp_all [AST.isWildcard, rewriteChild]

theorem rewriteChild_ok (nodes part : List AST) (child : AST)
    (hc : rewriteChild h data [] child = .ok part) :
    rewriteChild h data nodes child = .ok (nodes ++ part) := by
  cases child with
  | Asterisk aliases =>
    simp only [rewriteChild, Except.ok.injEq] at hc ⊢
    rw [asteriskTables_append, hc]
  | ColumnsMatcher pattern aliases =>
    simp only [rewriteChild, Except.ok.injEq] at hc ⊢
    rw [matcherTables_append, hc]
  | QualifiedAsterisk children aliases =>
    cases children with
    | nil => simp [rewriteChild] at hc
    | cons ident rest =>
      simp only [rewriteChild, Except.ok.injEq] at hc ⊢
      rw [qualifiedTables_append, hc]
  | _ => simp_all [rewriteChild]

theorem rewriteChild_error (nodes : List AST) (child : AST) (e : Fault)
    (hc : rewriteChild h data [] child = .error e) :
    rewriteChild h data nodes child = .error e := by
  cases child with
  | QualifiedAsterisk children aliases =>
    cases children with
    | nil => simpa [rewriteChild] using hc
    | cons ident rest => simp [rewriteChild] at hc
  | _ => simp [rewriteChild] at hc

/-- The second loop succeeds exactly when every child's own rewriting does, and then appends
the per-child results in order. -/
theorem rewriteChildren_ok_iff (children nodes out : List AST) :
    rewriteChildren h data children nodes = .ok out ↔
      ∃ parts : List (List AST),
        List.Forall₂ (fun child part => rewriteChild h data [] child = .ok part) children parts ∧
          out = nodes ++ parts.flatten := by
  induction children generalizing nodes with
  | nil =>
    constructor
    · intro hv
      simp only [rewriteChildren, Except.ok.injEq] at hv
      exact ⟨[], List.Forall₂.nil, by simp [hv]⟩
    · rintro ⟨parts, hf, rfl⟩
      cases hf
      simp [rewriteChildren]
  | cons child rest ih =>
    constructor
    · intro hv
      cases hc : rewriteChild h data [] child with
      | error e => simp [rewriteChildren, rewriteChild_error h data nodes child e hc] at hv
      | ok part =>
        simp only [rewriteChildren, rewriteChild_ok h data nodes part child hc] at hv
        obtain ⟨parts, hf, rfl⟩ := (ih _).1 hv
        exact ⟨part :: parts, List.Forall₂.cons hc hf, by simp [List.append_assoc]⟩
    · rintro ⟨parts, hf, rfl⟩
      cases hf with
      | cons hc hf =>
        simp only [rewriteChildren, rewriteChild_ok h data nodes _ child hc]
        exact (ih _).2 ⟨_, hf, by simp [List.append_assoc]⟩

theorem rewriteChildren_nil (nodes : List AST) :
    rewriteChildren h data [] nodes = .ok nodes := by
  simp [rewriteChildren]

/-- The first loop answers `false` exactly on the lists without a wildcard child. -/
theorem hasAsterisk_false_iff (children : List AST) :
    hasAsterisk h data children = .ok false ↔ ∀ c ∈ children, c.isWildcard = false := by
  induction children with
  | nil => simp [hasAsterisk]
  | cons child rest ih =>
    cases child with
    | Asterisk aliases =>
      simp only [hasAsterisk, List.mem_cons, forall_eq_or_imp, AST.isWildcard]
      split <;> simp
    | ColumnsMatcher pattern aliases =>
      simp only [hasAsterisk, List.mem_cons, forall_eq_or_imp, AST.isWildcard]
      split <;> simp
    | QualifiedAsterisk children aliases =>
      simp only [hasAsterisk, List.mem_cons, forall_eq_or_imp, AST.isWildcard]
      split <;> simp
    | _ => simp [hasAsterisk, AST.isWildcard, ih]

/-- On a non-empty scope, a list whose first wildcard is a plain asterisk passes the check. -/
theorem hasAsterisk_asterisk (aliases : Option RevertedAliases) (rest : List AST)
    (hne : data.tables ≠ []) :
    hasAsterisk h data (AST.Asterisk aliases :: rest) = .ok true := by
  cases ht : data.tables with
  | nil => exact absurd ht hne
  | cons entry others => simp [hasAsterisk, ht]

/-- With an empty scope the check of a qualified asterisk throws. -/
theorem visitQualifiedAsterisk_empty_scope (children : List AST) (hempty : data.tables = []) :
    ∃ message code,
      visitQualifiedAsterisk h data children = .error (.exception message code) := by
  match children with
  | [] => exact ⟨_, _, rfl⟩
  | [ident] => simp [visitQualifiedAsterisk, hempty]
  | _ :: _ :: _ => exact ⟨_, _, rfl⟩

/-- With an empty scope the first loop throws as soon as the list has a wildcard child. -/
theorem hasAsterisk_empty_scope (children : List AST) (hempty : data.tables = [])
    (hw : ∃ c ∈ children, c.isWildcard = true) :
    ∃ message code, hasAsterisk h data children = .error (.exception message code) := by
  induction children with
  | nil => simp at hw
  | cons child rest ih =>
    cases child with
    | Asterisk aliases => simp [hasAsterisk, hempty]
    | ColumnsMatcher pattern aliases => simp [hasAsterisk, hempty]
    | QualifiedAsterisk children aliases =>
      obtain ⟨message, code, he⟩ := visitQualifiedAsterisk_empty_scope h data children hempty
      exact ⟨message, code, by simp [hasAsterisk, he]⟩
    | _ =>
      simp only [hasAsterisk]
      apply ih
      simpa [AST.isWildcard] using hw

/-- A list without wildcards is rewritten to itself, child by child. -/
theorem forall₂_singleton_of_no_wildcard (children : List AST)
    (hc : ∀ c ∈ children, c.isWildcard = false) :
    List.Forall₂ (fun child part => rewriteChild h data [] child = .ok part ∧
      (child.isWildcard = false → part = [child])) children (children.map fun c => [c]) := by
  induction children with
  | nil => exact List.Forall₂.nil
  | cons child rest ih =>
    refine List.Forall₂.cons ⟨?_, fun _ => rfl⟩ (ih fun c hm => hc c (List.mem_cons_of_mem _ hm))
    simpa using rewriteChild_of_not_wildcard h data [] child (hc child (List.mem_cons_self _ _))

theorem flatten_map_singleton (children : List AST) :
    (children.map fun c => [c]).flatten = children := by
  induction children with
  | nil => rfl
  | cons child rest ih => simp [ih]

/-- The children without the wildcards occur, in order, in the concatenated results. -/
theorem filter_sublist_flatten (children : List AST) (parts : List (List AST))
    (hf : List.Forall₂ (fun child part => rewriteChild h data [] child = .ok part)
      children parts) :
    (children.filter fun c => !c.isWildcard).Sublist parts.flatten := by
  induction hf with
  | nil => simp
  | @cons child part rest parts hc _ ih =>
    cases hw : child.isWildcard with
    | true =>
      simp only [List.filter, hw, Bool.not_true, List.flatten_cons]
      exact ih.trans (List.sublist_append_right _ _)
    | false =>
      rw [rewriteChild_of_not_wildcard h data [] child hw] at hc
      simp only [Except.ok.injEq, List.nil_append] at hc
      subst hc
      simp only [List.filter, hw, Bool.not_false, List.flatten_cons, List.singleton_append]
      exact ih.cons₂ _

end Rewrite


/-! ## Lemmas on the emitted columns -/

section Columns

variable (h : Helpers) (data : Data)

theorem flatMap_addIdentifier_none (table : DatabaseAndTableWithAlias) (columns : Names) :
    columns.flatMap (fun c => addIdentifier h [] table c none) =
      columns.map (qualifiedIdentifier (h.getQualifiedNamePrefix table)) := by
  induction columns with
  | nil => rfl
  | cons c rest ih =>
    rw [List.flatMap_cons, ih, addIdentifier_none]
    rfl

/-- Every node `addIdentifier` pushes for a column stands for that column. -/
theorem filter_isColumn_addIdentifier (table : DatabaseAndTableWithAlias)
    (c c1 : String) (aliases : Option RevertedAliases) :
    (addIdentifier h [] table c aliases).filter (AST.isColumn c1) =
      if c = c1 then addIdentifier h [] table c aliases else [] := by
  have key : ∀ node ∈ addIdentifier h [] table c aliases, node.emittedColumn = some c := by
    intro node hn
    unfold addIdentifier at hn
    cases aliases with
    | none =>
      simp at hn
      subst hn
      rfl
    | some map =>
      simp only at hn
      cases hl : map.lookup (ASTIdentifier.ofTableAndColumn (h.getQualifiedNamePrefix table)
          c).name with
      | none =>
        simp [hl] at hn
        subst hn
        rfl
      | some registered =>
        simp only [hl, addAliased_eq] at hn
        cases registered with
        | nil =>
          simp at hn
          subst hn
          rfl
        | cons a rest =>
          simp at hn
          rcases hn with rfl | ⟨b, _, rfl⟩ <;> rfl
  by_cases hc : c = c1
  · subst hc
    simp only [if_true]
    exact List.filter_eq_self.2 fun node hn => by simp [AST.isColumn, key node hn]
  · simp only [hc, if_false]
    exact List.filter_eq_nil_iff.2 fun node hn => by simp [AST.isColumn, key node hn, hc]

/-- The nodes a run of `addIdentifier` over a column list emits for one column name. -/
theorem filter_isColumn_columns (table : DatabaseAndTableWithAlias) (columns : Names)
    (c1 : String) (aliases : Option RevertedAliases) :
    (columns.flatMap fun c => addIdentifier h [] table c aliases).filter (AST.isColumn c1) =
      (List.replicate (columns.count c1) (addIdentifier h [] table c1 aliases)).flatten := by
  induction columns with
  | nil => simp
  | cons c rest ih =>
    simp only [List.flatMap_cons, List.filter_append, ih, filter_isColumn_addIdentifier,
      List.count_cons]
    by_cases hc : c = c1
    · subst hc
      simp [List.replicate_succ]
    · simp [hc]

/-- The tables after the first one emit nothing for a USING column. -/
theorem filter_isColumn_laterTables (aliases : Option RevertedAliases)
    (tables : List TableWithColumnNames) (c1 : String)
    (hu : c1 ∈ data.join_using_columns) :
    (laterTables h data aliases tables).filter (AST.isColumn c1) = [] := by
  induction tables with
  | nil => rfl
  | cons entry rest ih =>
    simp only [laterTables, List.flatMap_cons, List.filter_append] at ih ⊢
    rw [ih, filter_isColumn_columns]
    have : (entry.2.filter fun c => !data.join_using_columns.contains c).count c1 = 0 := by
      apply List.count_eq_zero.2
      simp [List.mem_filter, hu]
    rw [this]
    rfl

/-- The whole expansion of a plain asterisk as the first and only child, on a non-empty
scope. -/
theorem visit_single_asterisk (aliases : Option RevertedAliases)
    (table : DatabaseAndTableWithAlias) (columns : Names) (rest : List TableWithColumnNames)
    (ht : data.tables = (table, columns) :: rest) (hp : data.processAsterisks = true) :
    visitExpressionList h data [AST.Asterisk aliases] =
      .ok (columns.flatMap (fun c => addIdentifier h [] table c aliases) ++
        laterTables h data aliases rest) := by
  have hne : data.tables ≠ [] := by simp [ht]
  simp only [visitExpressionList, hp, if_true, hasAsterisk_asterisk h data aliases [] hne,
    rewriteChildren, rewriteChild]
  rw [ht, asteriskTables_true]
  simp

theorem laterTables_no_using (tables : List TableWithColumnNames)
    (hu : data.join_using_columns = []) :
    laterTables h data none tables =
      tables.flatMap fun entry =>
        entry.2.map (qualifiedIdentifier (h.getQualifiedNamePrefix entry.1)) := by
  simp [laterTables, hu, flatMap_addIdentifier_none]

end Columns


/-! ## The claims -/

theorem length_flatMap_columns (f : DatabaseAndTableWithAlias → String → AST)
    (tables : List TableWithColumnNames) :
    (tables.flatMap fun entry => entry.2.map (f entry.1)).length =
      (tables.map fun entry => entry.2.length).sum := by
  induction tables with
  | nil => rfl
  | cons entry rest ih => simp [List.flatMap_cons, ih]

/-- C1 (expansion totality): on a non-empty scope, with an empty USING set and expansion
enabled, the list made of one plain asterisk without reverse-alias map is rewritten to the
concatenation of the tables' column lists in scope order, every column as the two-part
identifier (prefix of its table, column name); the length is the sum of the lengths. -/
theorem C1_expansion_totality (h : Helpers) (data : Data)
    (hne : data.tables ≠ []) (hu : data.join_using_columns = [])
    (hp : data.processAsterisks = true) :
    visitExpressionList h data [AST.Asterisk none] =
        .ok (data.tables.flatMap fun entry =>
          entry.2.map (qualifiedIdentifier (h.getQualifiedNamePrefix entry.1))) ∧
      (data.tables.flatMap fun entry =>
          entry.2.map (qualifiedIdentifier (h.getQualifiedNamePrefix entry.1))).length =
        (data.tables.map fun entry => entry.2.length).sum := by
  refine ⟨?_, length_flatMap_columns
    (fun t => qualifiedIdentifier (h.getQualifiedNamePrefix t)) _⟩
  cases ht : data.tables with
  | nil => exact absurd ht hne
  | cons entry rest =>
    obtain ⟨table, columns⟩ := entry
    rw [visit_single_asterisk h data none table columns rest ht hp,
      laterTables_no_using h data rest hu, flatMap_addIdentifier_none]
    simp [List.flatMap_cons]

/-- C1 at `orders(id, total)`, `customers(id, name)` without USING: four identifiers. -/
theorem C1_expansion_totality_witness :
    visitExpressionList scenarioHelpers
        { source_columns := ["id", "total"], tables := ordersCustomers,
          join_using_columns := [], processAsterisks := true } [AST.Asterisk none] =
      .ok [qualifiedIdentifier "orders" "id", qualifiedIdentifier "orders" "total",
        qualifiedIdentifier "customers" "id", qualifiedIdentifier "customers" "name"] :=
  (C1_expansion_totality scenarioHelpers
    { source_columns := ["id", "total"], tables := ordersCustomers,
      join_using_columns := [], processAsterisks := true }
    (by decide) rfl rfl).1

/-- C2 (USING de-duplication for two tables): in a scope of two tables where the column `c`
occurs once in the first table's list, occurs in the second table's list and is in the USING
set, expanding the list made of one plain asterisk without reverse-alias map succeeds and
emits exactly one identifier for `c`, the one qualified by the first table. -/
theorem C2_using_deduplication (h : Helpers) (data : Data)
    (table1 table2 : DatabaseAndTableWithAlias) (columns1 columns2 : Names) (c : String)
    (ht : data.tables = [(table1, columns1), (table2, columns2)])
    (h1 : columns1.count c = 1) (_h2 : c ∈ columns2)
    (hu : c ∈ data.join_using_columns) (hp : data.processAsterisks = true) :
    ∃ out, visitExpressionList h data [AST.Asterisk none] = .ok out ∧
      out.filter (AST.isColumn c) =
        [qualifiedIdentifier (h.getQualifiedNamePrefix table1) c] := by
  refine ⟨_, visit_single_asterisk h data none table1 columns1 _ ht hp, ?_⟩
  rw [List.filter_append, filter_isColumn_columns, filter_isColumn_laterTables h data _ _ c hu,
    h1, addIdentifier_none]
  rfl

/-- C2 at the scenario `orders(id, total)`, `customers(id, name)`, `USING (id)`: the
expansion is `orders.id, orders.total, customers.name`, with one identifier for `id`. -/
theorem C2_using_deduplication_witness :
    visitExpressionList scenarioHelpers
        { source_columns := ["id", "total"], tables := ordersCustomers,
          join_using_columns := ["id"], processAsterisks := true } [AST.Asterisk none] =
      .ok [qualifiedIdentifier "orders" "id", qualifiedIdentifier "orders" "total",
        qualifiedIdentifier "customers" "name"] ∧
    ∃ out, visitExpressionList scenarioHelpers
        { source_columns := ["id", "total"], tables := ordersCustomers,
          join_using_columns := ["id"], processAsterisks := true } [AST.Asterisk none] =
        .ok out ∧
      out.filter (AST.isColumn "id") = [qualifiedIdentifier "orders" "id"] :=
  ⟨rfl, C2_using_deduplication scenarioHelpers
    { source_columns := ["id", "total"], tables := ordersCustomers,
      join_using_columns := ["id"], processAsterisks := true }
    (tableNamed "orders") (tableNamed "customers") ["id", "total"] ["id", "name"] "id"
    rfl (by decide) (by decide) (by decide) rfl⟩

/-- C3 fails as stated: with scope `t1(a)`, `t2(id)` and `USING (id)`, the column `id`
occurs in a table's column list (the second), yet the expansion of `*` is `t1.a` alone:
`id` is emitted zero times, not once qualified by `t2`. -/
theorem C3_using_first_table_counterexample :
    visitExpressionList scenarioHelpers
        { source_columns := ["a"], tables := onlyLaterTableHasId,
          join_using_columns := ["id"], processAsterisks := true } [AST.Asterisk none] =
      .ok [qualifiedIdentifier "t1" "a"] ∧
    ¬ ∃ out, visitExpressionList scenarioHelpers
        { source_columns := ["a"], tables := onlyLaterTableHasId,
          join_using_columns := ["id"], processAsterisks := true } [AST.Asterisk none] =
        .ok out ∧
      out.filter (AST.isColumn "id") = [qualifiedIdentifier "t2" "id"] := by
  refine ⟨rfl, ?_⟩
  rintro ⟨out, hv, hf⟩
  have hr : visitExpressionList scenarioHelpers
      { source_columns := ["a"], tables := onlyLaterTableHasId,
        join_using_columns := ["id"], processAsterisks := true } [AST.Asterisk none] =
      .ok [qualifiedIdentifier "t1" "a"] := rfl
  rw [hr] at hv
  injection hv with hv
  subst hv
  have hn : List.filter (AST.isColumn "id") [qualifiedIdentifier "t1" "a"] = [] := rfl
  rw [hn] at hf
  exact List.noConfusion hf

/-- C3 as amended: a USING column is taken from the table at position 0 only. On a scope
whose first table has a duplicate-free column list, for a column `c` of the USING set,
expanding a plain asterisk emits for `c` exactly what `addIdentifier` emits for the first
table and `c` when the first table has `c`, and nothing when it has not; without a
reverse-alias map that is the single identifier qualified by the first table. -/
theorem C3_using_first_table_amended (h : Helpers) (data : Data)
    (table : DatabaseAndTableWithAlias) (columns : Names) (rest : List TableWithColumnNames)
    (aliases : Option RevertedAliases) (c : String)
    (ht : data.tables = (table, columns) :: rest) (hd : columns.Nodup)
    (hu : c ∈ data.join_using_columns) (hp : data.processAsterisks = true) :
    ∃ out, visitExpressionList h data [AST.Asterisk aliases] = .ok out ∧
      out.filter (AST.isColumn c) =
        (if c ∈ columns then addIdentifier h [] table c aliases else []) ∧
      (aliases = none → out.filter (AST.isColumn c) =
        if c ∈ columns then [qualifiedIdentifier (h.getQualifiedNamePrefix table) c]
        else []) := by
  have key : ∀ al : Option RevertedAliases,
      ((columns.flatMap fun c => addIdentifier h [] table c al) ++
          laterTables h data al rest).filter (AST.isColumn c) =
        if c ∈ columns then addIdentifier h [] table c al else [] := by
    intro al
    rw [List.filter_append, filter_isColumn_columns, filter_isColumn_laterTables h data _ _ c hu]
    by_cases hc : c ∈ columns
    · simp [hc, List.count_eq_one_of_mem hd hc]
    · simp [hc, List.count_eq_zero_of_not_mem hc]
  refine ⟨_, visit_single_asterisk h data aliases table columns rest ht hp, key aliases, ?_⟩
  rintro rfl
  rw [key none, addIdentifier_none]
  rfl

/-- C3 as amended at `orders(id, total)`, `customers(id, name)`, `USING (id)`. -/
theorem C3_using_first_table_amended_witness :
    ∃ out, visitExpressionList scenarioHelpers
        { source_columns := ["id", "total"], tables := ordersCustomers,
          join_using_columns := ["id"], processAsterisks := true } [AST.Asterisk none] =
        .ok out ∧
      out.filter (AST.isColumn "id") =
        (if "id" ∈ ["id", "total"] then
          addIdentifier scenarioHelpers [] (tableNamed "orders") "id" none else []) ∧
      ((none : Option RevertedAliases) = none → out.filter (AST.isColumn "id") =
        if "id" ∈ ["id", "total"] then
          [qualifiedIdentifier (scenarioHelpers.getQualifiedNamePrefix (tableNamed "orders")) "id"]
        else []) :=
  C3_using_first_table_amended scenarioHelpers
    { source_columns := ["id", "total"], tables := ordersCustomers,
      join_using_columns := ["id"], processAsterisks := true }
    (tableNamed "orders") ["id", "total"] [(tableNamed "customers", ["id", "name"])] none "id"
    rfl (by decide) (by decide) rfl


theorem find?_first_satisfying {α : Type} (p : α → Bool) (pre post : List α) (x : α)
    (hpre : ∀ e ∈ pre, p e = false) (hx : p x = true) :
    (pre ++ x :: post).find? p = some x := by
  induction pre with
  | nil => simp [List.find?_cons, hx]
  | cons e rest ih =>
    have he : p e = false := hpre e (List.mem_cons_self _ _)
    simp only [List.cons_append, List.find?_cons, he]
    exact ih fun e1 hm => hpre e1 (List.mem_cons_of_mem _ hm)

/-- The expansion of a qualified asterisk, with one child, as the only child of a list. -/
theorem visit_single_qualified (h : Helpers) (data : Data) (ident : AST)
    (pre post : List TableWithColumnNames) (entry : TableWithColumnNames)
    (ht : data.tables = pre ++ entry :: post)
    (hpre : ∀ e ∈ pre, h.satisfies ident e.1 = false)
    (hs : h.satisfies ident entry.1 = true) (hp : data.processAsterisks = true) :
    visitExpressionList h data [AST.QualifiedAsterisk [ident] none] =
      .ok (entry.2.map (qualifiedIdentifier (h.getQualifiedNamePrefix entry.1))) := by
  have hany : (data.tables.any fun known_table => h.satisfies ident known_table.1) = true := by
    rw [ht, List.any_eq_true]
    exact ⟨entry, by simp, hs⟩
  have hfind : data.tables.find? (fun e => h.satisfies ident e.1) = some entry := by
    rw [ht]
    exact find?_first_satisfying _ pre post entry hpre hs
  simp only [visitExpressionList, hp, if_true, hasAsterisk, visitQualifiedAsterisk, hany,
    rewriteChildren, rewriteChild]
  rw [qualifiedTables_find, hfind]
  simp only [List.nil_append, flatMap_addIdentifier_none]

/-- C4 (qualified-asterisk scoping): with expansion enabled, when `entry` is the first table
in scope order that the reference of a qualified asterisk (one child, no reverse-alias map)
satisfies, the list made of that qualified asterisk is rewritten to exactly the columns of
`entry`, in declared order, each qualified by the prefix of `entry`; the result is the
same for every USING set. -/
theorem C4_qualified_asterisk_scoping (h : Helpers) (data : Data) (ident : AST)
    (pre post : List TableWithColumnNames) (entry : TableWithColumnNames)
    (ht : data.tables = pre ++ entry :: post)
    (hpre : ∀ e ∈ pre, h.satisfies ident e.1 = false)
    (hs : h.satisfies ident entry.1 = true) (hp : data.processAsterisks = true) :
    visitExpressionList h data [AST.QualifiedAsterisk [ident] none] =
        .ok (entry.2.map (qualifiedIdentifier (h.getQualifiedNamePrefix entry.1))) ∧
      ∀ using_columns : NameSet,
        visitExpressionList h { data with join_using_columns := using_columns }
            [AST.QualifiedAsterisk [ident] none] =
          visitExpressionList h data [AST.QualifiedAsterisk [ident] none] := by
  refine ⟨visit_single_qualified h data ident pre post entry ht hpre hs hp,
    fun using_columns => ?_⟩
  rw [visit_single_qualified h data ident pre post entry ht hpre hs hp,
    visit_single_qualified h { data with join_using_columns := using_columns } ident pre post
      entry ht hpre hs hp]

/-- C4 at the scenario `orders` alias `o` `(id, total)`, list `o.*`: the result is
`o.id, o.total`; and on the scope `customers` alias `c` `(id, name)`, `orders` alias `o`
`(id, total)` with `USING (id)` the same list gives the same result, with the column `id`
of `orders` kept and no column of `customers`. -/
theorem C4_qualified_asterisk_scoping_witness :
    visitExpressionList scenarioHelpers
        { source_columns := ["id", "total"],
          tables := [(tableAliased "orders" "o", ["id", "total"])],
          join_using_columns := [], processAsterisks := true } [qualifiedAsterisk "o"] =
      .ok [qualifiedIdentifier "o" "id", qualifiedIdentifier "o" "total"] ∧
    visitExpressionList scenarioHelpers
        { source_columns := ["id", "name"], tables := customersOrdersAliased,
          join_using_columns := ["id"], processAsterisks := true } [qualifiedAsterisk "o"] =
      .ok [qualifiedIdentifier "o" "id", qualifiedIdentifier "o" "total"] :=
  ⟨(C4_qualified_asterisk_scoping scenarioHelpers
      { source_columns := ["id", "total"],
        tables := [(tableAliased "orders" "o", ["id", "total"])],
        join_using_columns := [], processAsterisks := true }
      (.Identifier (bareIdentifier "o")) [] [] (tableAliased "orders" "o", ["id", "total"])
      rfl (by simp) rfl rfl).1,
    (C4_qualified_asterisk_scoping scenarioHelpers
      { source_columns := ["id", "name"], tables := customersOrdersAliased,
        join_using_columns := ["id"], processAsterisks := true }
      (.Identifier (bareIdentifier "o")) [(tableAliased "customers" "c", ["id", "name"])] []
      (tableAliased "orders" "o", ["id", "total"])
      rfl (by intro e he; simp at he; subst he; rfl) rfl rfl).1⟩

/-- C5 (count normalization): `visit(ASTFunction)` leaves no argument when the lower-cased
name is `count` and the argument list is one plain asterisk; in every other case the
argument list is unchanged. -/
theorem C5_count_asterisk_normalization (name : String) (func_arguments : List AST) :
    ((Poco.toLower name = "count" ∧ ∃ aliases, func_arguments = [AST.Asterisk aliases]) →
        visitFunction name func_arguments = []) ∧
      (¬ (Poco.toLower name = "count" ∧ ∃ aliases, func_arguments = [AST.Asterisk aliases]) →
        visitFunction name func_arguments = func_arguments) := by
  constructor
  · rintro ⟨hn, aliases, rfl⟩
    simp [visitFunction, hn]
  · intro hnot
    have hcond : ¬ ((Poco.toLower name == "count" && func_arguments.length == 1 &&
        (match func_arguments.head? with
          | some (.Asterisk _) => true
          | _ => false)) = true) := by
      intro hc
      apply hnot
      simp only [Bool.and_eq_true, beq_iff_eq] at hc
      obtain ⟨⟨hn, hl⟩, hm⟩ := hc
      refine ⟨hn, ?_⟩
      cases func_arguments with
      | nil => simp at hl
      | cons first rest =>
        cases rest with
        | nil =>
          cases first with
          | Asterisk aliases => exact ⟨aliases, rfl⟩
          | _ => simp at hm
        | cons second others => simp at hl
    simp only [visitFunction]
    rw [if_neg hcond]

/-- C5 at `COUNT(*)`, which loses its argument, and at `count(a.*)`, `count(*, *)` and
`sum(*)`, which keep theirs. -/
theorem C5_count_asterisk_normalization_witness :
    visitFunction "COUNT" [AST.Asterisk none] = [] ∧
      visitFunction "count" [qualifiedAsterisk "a"] = [qualifiedAsterisk "a"] ∧
      visitFunction "count" [AST.Asterisk none, AST.Asterisk none] =
        [AST.Asterisk none, AST.Asterisk none] ∧
      visitFunction "sum" [AST.Asterisk none] = [AST.Asterisk none] :=
  ⟨(C5_count_asterisk_normalization "COUNT" [AST.Asterisk none]).1 ⟨by decide, none, rfl⟩,
    (C5_count_asterisk_normalization "count" [qualifiedAsterisk "a"]).2
      (by rintro ⟨_, aliases, ha⟩; simp [qualifiedAsterisk] at ha),
    (C5_count_asterisk_normalization "count" [AST.Asterisk none, AST.Asterisk none]).2
      (by rintro ⟨_, aliases, ha⟩; simp at ha),
    (C5_count_asterisk_normalization "sum" [AST.Asterisk none]).2
      (by rintro ⟨hn, _⟩; revert hn; decide)⟩

/-- C6, the code at the failing input: on the scope `t(a)` the list `*, zz.*`, whose
qualified asterisk names a table that is not in scope, is rewritten successfully to `t.a`
(the qualified asterisk contributes nothing), although the same qualified asterisk alone is
rejected with the unknown-identifier error. -/
theorem C6_unknown_qualified_asterisk_not_rejected :
    tableSatisfies (.Identifier (bareIdentifier "zz")) (tableNamed "t") = false ∧
      visitExpressionList scenarioHelpers
          { source_columns := ["a"], tables := [(tableNamed "t", ["a"])],
            join_using_columns := [], processAsterisks := true }
          [AST.Asterisk none, qualifiedAsterisk "zz"] =
        .ok [qualifiedIdentifier "t" "a"] ∧
      visitExpressionList scenarioHelpers
          { source_columns := ["a"], tables := [(tableNamed "t", ["a"])],
            join_using_columns := [], processAsterisks := true }
          [qualifiedAsterisk "zz"] =
        .error (.exception "Unknown qualified identifier: zz" .UNKNOWN_IDENTIFIER) :=
  ⟨rfl, rfl, rfl⟩


/-- C7 (empty-scope wildcard fails): with an empty table scope and expansion enabled, the
visit of a list that has an asterisk, a columns matcher or a qualified asterisk among its
children throws an exception; it returns no list. -/
theorem C7_empty_scope_wildcard_fails (h : Helpers) (data : Data) (children : List AST)
    (hempty : data.tables = []) (hp : data.processAsterisks = true)
    (hw : ∃ c ∈ children, c.isWildcard = true) :
    ∃ message code,
      visitExpressionList h data children = .error (.exception message code) := by
  obtain ⟨message, code, he⟩ := hasAsterisk_empty_scope h data children hempty hw
  exact ⟨message, code, by simp [visitExpressionList, hp, he]⟩

/-- C7 at the scenario: empty scope, list `*`. -/
theorem C7_empty_scope_wildcard_fails_witness :
    ∃ message code,
      visitExpressionList scenarioHelpers
          { source_columns := [], tables := [], join_using_columns := [],
            processAsterisks := true } [AST.Asterisk none] =
        .error (.exception message code) :=
  C7_empty_scope_wildcard_fails scenarioHelpers
    { source_columns := [], tables := [], join_using_columns := [], processAsterisks := true }
    [AST.Asterisk none] rfl rfl ⟨AST.Asterisk none, by simp, rfl⟩

/-- C8 (positional interleaving): when the visit of a list succeeds with expansion enabled,
the new children are the in-order concatenation of one part per child, where the part of a
child is what the rewriting of that child alone produces and the part of a child that is not
a wildcard is the child itself; so the children that are not wildcards occur in the result
in their original order. -/
theorem C8_positional_interleaving (h : Helpers) (data : Data) (children out : List AST)
    (hp : data.processAsterisks = true)
    (hv : visitExpressionList h data children = .ok out) :
    ∃ parts : List (List AST),
      List.Forall₂ (fun child part => rewriteChild h data [] child = .ok part ∧
          (child.isWildcard = false → part = [child])) children parts ∧
        out = parts.flatten ∧
        (children.filter fun c => !c.isWildcard).Sublist out := by
  have main : ∃ parts : List (List AST),
      List.Forall₂ (fun child part => rewriteChild h data [] child = .ok part) children parts ∧
        out = parts.flatten := by
    simp only [visitExpressionList, hp, if_true] at hv
    cases ha : hasAsterisk h data children with
    | error e => simp [ha] at hv
    | ok has_asterisk =>
      cases has_asterisk with
      | true =>
        simp only [ha, if_true] at hv
        simpa using (rewriteChildren_ok_iff h data children [] out).1 hv
      | false =>
        simp only [ha, rewriteChildren_nil, Except.ok.injEq, Bool.false_eq_true,
          if_false] at hv
        subst hv
        refine ⟨children.map fun c => [c], ?_, (flatten_map_singleton children).symm⟩
        exact (forall₂_singleton_of_no_wildcard h data children
          ((hasAsterisk_false_iff h data children).1 ha)).imp fun _ _ hr => hr.1
  obtain ⟨parts, hf, rfl⟩ := main
  refine ⟨parts, hf.imp fun child part hr => ⟨hr, fun hc => ?_⟩, rfl,
    filter_sublist_flatten h data children parts hf⟩
  rw [rewriteChild_of_not_wildcard h data [] child hc] at hr
  simpa using hr.symm

/-- C8 at the list `x, *, y` on the scope `orders(id, total)`: the result is
`x, orders.id, orders.total, y`. -/
theorem C8_positional_interleaving_witness :
    ∃ parts : List (List AST),
      List.Forall₂ (fun child part =>
          rewriteChild scenarioHelpers
            { source_columns := ["id", "total"],
              tables := [(tableNamed "orders", ["id", "total"])],
              join_using_columns := [], processAsterisks := true } [] child = .ok part ∧
          (child.isWildcard = false → part = [child]))
        [AST.Identifier (bareIdentifier "x"), AST.Asterisk none,
          AST.Identifier (bareIdentifier "y")] parts ∧
        [AST.Identifier (bareIdentifier "x"), qualifiedIdentifier "orders" "id",
          qualifiedIdentifier "orders" "total", AST.Identifier (bareIdentifier "y")] =
          parts.flatten ∧
        (List.filter (fun c => !c.isWildcard)
          [AST.Identifier (bareIdentifier "x"), AST.Asterisk none,
            AST.Identifier (bareIdentifier "y")]).Sublist
          [AST.Identifier (bareIdentifier "x"), qualifiedIdentifier "orders" "id",
            qualifiedIdentifier "orders" "total", AST.Identifier (bareIdentifier "y")] :=
  C8_positional_interleaving scenarioHelpers
    { source_columns := ["id", "total"], tables := [(tableNamed "orders", ["id", "total"])],
      join_using_columns := [], processAsterisks := true }
    [AST.Identifier (bareIdentifier "x"), AST.Asterisk none, AST.Identifier (bareIdentifier "y")]
    [AST.Identifier (bareIdentifier "x"), qualifiedIdentifier "orders" "id",
      qualifiedIdentifier "orders" "total", AST.Identifier (bareIdentifier "y")]
    rfl rfl

/-- C9 (no-op without wildcards or when disabled): if expansion is disabled for the context,
or no child of the list is an asterisk, a columns matcher or a qualified asterisk, the visit
succeeds and the children are exactly what they were, whatever the scope. -/
theorem C9_expansion_noop (h : Helpers) (data : Data) (children : List AST)
    (hc : data.processAsterisks = false ∨ ∀ c ∈ children, c.isWildcard = false) :
    visitExpressionList h data children = .ok children := by
  cases hp : data.processAsterisks with
  | false => simp [visitExpressionList, hp, rewriteChildren_nil]
  | true =>
    have hno : ∀ c ∈ children, c.isWildcard = false := by
      rcases hc with hc | hc
      · rw [hp] at hc
        exact absurd hc (by decide)
      · exact hc
    simp [visitExpressionList, hp, (hasAsterisk_false_iff h data children).2 hno,
      rewriteChildren_nil]

/-- C9 with expansion disabled on an empty scope and the list `*, x`, and with expansion
enabled on an empty scope and the list `x, y`. -/
theorem C9_expansion_noop_witness :
    visitExpressionList scenarioHelpers
        { source_columns := [], tables := [], join_using_columns := [],
          processAsterisks := false }
        [AST.Asterisk none, AST.Identifier (bareIdentifier "x")] =
      .ok [AST.Asterisk none, AST.Identifier (bareIdentifier "x")] ∧
    visitExpressionList scenarioHelpers
        { source_columns := [], tables := [], join_using_columns := [],
          processAsterisks := true }
        [AST.Identifier (bareIdentifier "x"), AST.Identifier (bareIdentifier "y")] =
      .ok [AST.Identifier (bareIdentifier "x"), AST.Identifier (bareIdentifier "y")] :=
  ⟨C9_expansion_noop scenarioHelpers
      { source_columns := [], tables := [], join_using_columns := [],
        processAsterisks := false }
      [AST.Asterisk none, AST.Identifier (bareIdentifier "x")] (Or.inl rfl),
    C9_expansion_noop scenarioHelpers
      { source_columns := [], tables := [], join_using_columns := [],
        processAsterisks := true }
      [AST.Identifier (bareIdentifier "x"), AST.Identifier (bareIdentifier "y")]
      (Or.inr (by simp [AST.isWildcard]))⟩

/-- C10 (display form after resolution): for an identifier that denotes a column and for
which table selection answers the position `p` of a table in scope, the visit records the
membership `p` and then sets the long name when `p` is non-zero and the short name is among
the source columns, and the short name in every other case. -/
theorem C10_display_form (h : Helpers) (data : Data) (identifier : ASTIdentifier) (p : Nat)
    (entry : TableWithColumnNames)
    (hcol : (h.getColumnName identifier).isSome = true)
    (hchoose : h.chooseTable identifier data.tables
      (data.join_using_columns.contains (h.shortName identifier)) = some p)
    (hentry : data.tables.get? p = some entry) :
    visitIdentifier h data identifier =
        .ok (if p ≠ 0 ∧ data.hasColumn (h.shortName identifier) = true then
            h.setColumnLongName (setMembership identifier p) entry.1
          else h.setColumnShortName (setMembership identifier p) entry.1) ∧
      (setMembership identifier p).membership = some p := by
  refine ⟨?_, rfl⟩
  obtain ⟨column_name, hname⟩ := Option.isSome_iff_exists.1 hcol
  simp only [visitIdentifier, hname, hchoose, hentry]
  by_cases hc : p ≠ 0 ∧ data.hasColumn (h.shortName identifier) = true
  · rw [if_pos hc, if_pos (by simpa using hc)]
  · rw [if_neg hc, if_neg (by simpa using hc)]


/-- C10 at two inputs. On `orders(id, total)`, `customers(id, name)` the bare `name` gets
membership 1 and, `name` not being a source column, the short name. On `orders(total)`,
`customers(id, name)` with source columns `id, total` the bare `id` gets membership 1 and,
`id` being a source column, the long name `customers.id`. -/
theorem C10_display_form_witness :
    visitIdentifier scenarioHelpers
        { source_columns := ["id", "total"], tables := ordersCustomers,
          join_using_columns := [], processAsterisks := true } (bareIdentifier "name") =
      .ok { name := "name", name_parts := [], alias_ := "", membership := some 1,
            special := false } ∧
    visitIdentifier scenarioHelpers
        { source_columns := ["id", "total"],
          tables := [(tableNamed "orders", ["total"]), (tableNamed "customers", ["id", "name"])],
          join_using_columns := [], processAsterisks := true } (bareIdentifier "id") =
      .ok { name := "customers.id", name_parts := ["customers", "id"], alias_ := "",
            membership := some 1, special := false } :=
  ⟨(C10_display_form scenarioHelpers
      { source_columns := ["id", "total"], tables := ordersCustomers,
        join_using_columns := [], processAsterisks := true } (bareIdentifier "name") 1
      (tableNamed "customers", ["id", "name"]) rfl rfl rfl).1,
    (C10_display_form scenarioHelpers
      { source_columns := ["id", "total"],
        tables := [(tableNamed "orders", ["total"]), (tableNamed "customers", ["id", "name"])],
        join_using_columns := [], processAsterisks := true } (bareIdentifier "id") 1
      (tableNamed "customers", ["id", "name"]) rfl rfl rfl).1⟩


/-! ## Lemmas on the collection of USING names -/

section Using

variable (h : Helpers)

theorem extractKeys_cons_some (key : AST) (rest : List AST) (set : NameSet) (name : String)
    (hn : usingKeyName h key = some name) :
    extractKeys h (key :: rest) set = extractKeys h rest (name :: set) := by
  unfold usingKeyName at hn
  rw [extractKeys]
  cases ht : h.tryGetIdentifierName key with
  | some opt_column =>
    simp only [ht, Option.some.injEq] at hn
    simp [hn]
  | none =>
    simp only [ht] at hn
    by_cases hl : key.isLiteral = true
    · simp_all
    · by_cases ha : (h.tryGetAlias key).isEmpty = true <;> simp_all

theorem extractKeys_cons_none (key : AST) (rest : List AST) (set : NameSet)
    (hn : usingKeyName h key = none) :
    extractKeys h (key :: rest) set =
      (set, some (.exception
        ("Logical error: expected identifier or alias, got: " ++ h.getID key)
        .LOGICAL_ERROR)) := by
  unfold usingKeyName at hn
  rw [extractKeys]
  cases ht : h.tryGetIdentifierName key with
  | some opt_column => simp [ht] at hn
  | none =>
    simp only [ht] at hn
    by_cases hl : key.isLiteral = true
    · simp_all
    · by_cases ha : (h.tryGetAlias key).isEmpty = true <;> simp_all

/-- When every entry contributes a name the loop ends without fault, and the set then holds
the old names and the contributed ones. -/
theorem extractKeys_ok (keys : List AST) (set : NameSet)
    (hall : ∀ key ∈ keys, usingKeyName h key ≠ none) :
    (extractKeys h keys set).2 = none ∧
      ∀ x, x ∈ (extractKeys h keys set).1 ↔
        x ∈ set ∨ ∃ key ∈ keys, usingKeyName h key = some x := by
  induction keys generalizing set with
  | nil => simp [extractKeys]
  | cons key rest ih =>
    obtain ⟨name, hn⟩ := Option.ne_none_iff_exists'.1 (hall key (List.mem_cons_self _ _))
    rw [extractKeys_cons_some h key rest set name hn]
    obtain ⟨hok, hmem⟩ := ih (name :: set) fun k hk => hall k (List.mem_cons_of_mem _ hk)
    refine ⟨hok, fun x => ?_⟩
    rw [hmem x]
    simp only [List.mem_cons, exists_eq_or_imp, hn, Option.some.injEq]
    constructor
    · rintro ((rfl | hx) | hx)
      · exact Or.inr (Or.inl rfl)
      · exact Or.inl hx
      · exact Or.inr (Or.inr hx)
    · rintro (hx | rfl | hx)
      · exact Or.inl (Or.inr hx)
      · exact Or.inl (Or.inl rfl)
      · exact Or.inr hx

/-- A fault of the loop is the logical error raised for an entry that contributes no name. -/
theorem extractKeys_fault (keys : List AST) (set : NameSet) (e : Fault)
    (he : (extractKeys h keys set).2 = some e) :
    ∃ key ∈ keys, usingKeyName h key = none ∧
      e = .exception ("Logical error: expected identifier or alias, got: " ++ h.getID key)
        .LOGICAL_ERROR := by
  induction keys generalizing set with
  | nil => simp [extractKeys] at he
  | cons key rest ih =>
    cases hn : usingKeyName h key with
    | none =>
      rw [extractKeys_cons_none h key rest set hn] at he
      simp only [Option.some.injEq] at he
      exact ⟨key, List.mem_cons_self _ _, hn, he.symm⟩
    | some name =>
      rw [extractKeys_cons_some h key rest set name hn] at he
      obtain ⟨k, hk, hkn, hke⟩ := ih _ he
      exact ⟨k, List.mem_cons_of_mem _ hk, hkn, hke⟩

theorem usingKeyName_eq_none_iff (key : AST) :
    usingKeyName h key = none ↔
      h.tryGetIdentifierName key = none ∧ (∀ value alias_, key ≠ AST.Literal value alias_) ∧
        (h.tryGetAlias key).isEmpty = true := by
  unfold usingKeyName
  cases ht : h.tryGetIdentifierName key with
  | some name => simp
  | none => cases key <;> simp [AST.isLiteral]

end Using

/-- C11 (ambiguity tie-break), with table selection as the spec describes it: in a scope of
two tables whose column lists both contain the short name of a column identifier, table
selection succeeds exactly when the short name is in the USING set; then the identifier gets
membership 0 and the short display form, and otherwise the visit leaves it as it was. -/
theorem C11_ambiguity_tie_break (h : Helpers) (data : Data) (identifier : ASTIdentifier)
    (table1 table2 : DatabaseAndTableWithAlias) (columns1 columns2 : Names)
    (hchoose : h.chooseTable = chooseTableByColumn) (hshort : h.shortName = identifierShortName)
    (hcol : (h.getColumnName identifier).isSome = true)
    (ht : data.tables = [(table1, columns1), (table2, columns2)])
    (h1 : identifierShortName identifier ∈ columns1)
    (h2 : identifierShortName identifier ∈ columns2) :
    ((h.chooseTable identifier data.tables
          (data.join_using_columns.contains (h.shortName identifier))).isSome = true ↔
        identifierShortName identifier ∈ data.join_using_columns) ∧
      (identifierShortName identifier ∈ data.join_using_columns →
        visitIdentifier h data identifier =
          .ok (h.setColumnShortName (setMembership identifier 0) table1)) ∧
      (identifierShortName identifier ∉ data.join_using_columns →
        visitIdentifier h data identifier = .ok identifier) := by
  obtain ⟨column_name, hname⟩ := Option.isSome_iff_exists.1 hcol
  have hsel : ∀ allow_ambiguous : Bool,
      h.chooseTable identifier data.tables allow_ambiguous =
        if allow_ambiguous then some 0 else none := by
    intro allow_ambiguous
    simp [hchoose, ht, chooseTableByColumn, tablesWithColumn, h1, h2]
  refine ⟨?_, fun hu => ?_, fun hu => ?_⟩
  · rw [hsel, hshort]
    by_cases hu : identifierShortName identifier ∈ data.join_using_columns <;> simp [hu]
  · have hc : data.join_using_columns.contains (h.shortName identifier) = true := by
      simpa [hshort] using hu
    simp only [visitIdentifier, hname, hsel, hc]
    simp [ht]
  · have hc : data.join_using_columns.contains (h.shortName identifier) = false := by
      simpa [hshort] using hu
    simp only [visitIdentifier, hname, hsel, hc]
    simp

/-- C11 at `orders(id, total)`, `customers(id, name)` and the bare identifier `id`: with
`USING (id)` it is resolved to the table at position 0 with the short name, and without
USING it is left as it was. -/
theorem C11_ambiguity_tie_break_witness :
    visitIdentifier scenarioHelpers
        { source_columns := ["id", "total"], tables := ordersCustomers,
          join_using_columns := ["id"], processAsterisks := true } (bareIdentifier "id") =
      .ok { name := "id", name_parts := [], alias_ := "", membership := some 0,
            special := false } ∧
    visitIdentifier scenarioHelpers
        { source_columns := ["id", "total"], tables := ordersCustomers,
          join_using_columns := [], processAsterisks := true } (bareIdentifier "id") =
      .ok (bareIdentifier "id") :=
  ⟨(C11_ambiguity_tie_break scenarioHelpers
      { source_columns := ["id", "total"], tables := ordersCustomers,
        join_using_columns := ["id"], processAsterisks := true } (bareIdentifier "id")
      (tableNamed "orders") (tableNamed "customers") ["id", "total"] ["id", "name"]
      rfl rfl rfl rfl (by decide) (by decide)).2.1 (by decide),
    (C11_ambiguity_tie_break scenarioHelpers
      { source_columns := ["id", "total"], tables := ordersCustomers,
        join_using_columns := [], processAsterisks := true } (bareIdentifier "id")
      (tableNamed "orders") (tableNamed "customers") ["id", "total"] ["id", "name"]
      rfl rfl rfl rfl (by decide) (by decide)).2.2 (by decide)⟩


/-- C12 (USING name collection): when every entry of the USING list contributes a name (it
is an identifier, a literal, or has a non-empty alias), `extractJoinUsingColumns` ends
without fault, the USING set afterwards holds exactly the names it held before and the names
the entries contribute, and the rest of the context is as before; for a join without USING
list the context is unchanged. -/
theorem C12_using_name_collection (h : Helpers) (keys : List AST) (data : Data)
    (hall : ∀ key ∈ keys, usingKeyName h key ≠ none) :
    (extractJoinUsingColumns h (some keys) data).2 = none ∧
      (∀ x, x ∈ (extractJoinUsingColumns h (some keys) data).1.join_using_columns ↔
        x ∈ data.join_using_columns ∨ ∃ key ∈ keys, usingKeyName h key = some x) ∧
      (extractJoinUsingColumns h (some keys) data).1.tables = data.tables ∧
      (extractJoinUsingColumns h (some keys) data).1.source_columns = data.source_columns ∧
      (extractJoinUsingColumns h (some keys) data).1.processAsterisks = data.processAsterisks ∧
      extractJoinUsingColumns h none data = (data, none) := by
  obtain ⟨hok, hmem⟩ := extractKeys_ok h keys data.join_using_columns hall
  exact ⟨hok, hmem, rfl, rfl, rfl, rfl⟩

/-- C12 at the USING list `id AS x, 1, f() AS k` and the previous USING set `a`: the set
afterwards holds `a`, `id` (not `x`), `1` and `k`. -/
theorem C12_using_name_collection_witness :
    (extractJoinUsingColumns scenarioHelpers (some usingIdLiteralAliased)
        { source_columns := [], tables := ordersCustomers, join_using_columns := ["a"],
          processAsterisks := true }).1.join_using_columns = ["k", "1", "id", "a"] ∧
    (extractJoinUsingColumns scenarioHelpers (some usingIdLiteralAliased)
        { source_columns := [], tables := ordersCustomers, join_using_columns := ["a"],
          processAsterisks := true }).2 = none :=
  ⟨rfl, (C12_using_name_collection scenarioHelpers usingIdLiteralAliased
    { source_columns := [], tables := ordersCustomers, join_using_columns := ["a"],
      processAsterisks := true }
    (by
      intro key hk
      simp only [usingIdLiteralAliased, List.mem_cons, List.mem_singleton, List.not_mem_nil,
        or_false] at hk
      rcases hk with rfl | rfl | rfl <;> exact Option.noConfusion)).1⟩

/-- C13 (failure condition of the USING collector): for a join with a USING list,
`extractJoinUsingColumns` throws the logical error exactly when some entry is not an
identifier, is not a literal and has an empty alias; it raises no other fault. -/
theorem C13_using_collector_failure (h : Helpers) (keys : List AST) (data : Data) :
    ((∃ message, (extractJoinUsingColumns h (some keys) data).2 =
          some (.exception message .LOGICAL_ERROR)) ↔
        ∃ key ∈ keys, h.tryGetIdentifierName key = none ∧
          (∀ value alias_, key ≠ AST.Literal value alias_) ∧
          (h.tryGetAlias key).isEmpty = true) ∧
      ∀ e, (extractJoinUsingColumns h (some keys) data).2 = some e →
        ∃ message, e = .exception message .LOGICAL_ERROR := by
  have hfault : ∀ e, (extractJoinUsingColumns h (some keys) data).2 = some e →
      ∃ key ∈ keys, usingKeyName h key = none ∧
        e = .exception ("Logical error: expected identifier or alias, got: " ++ h.getID key)
          .LOGICAL_ERROR :=
    fun e he => extractKeys_fault h keys data.join_using_columns e he
  refine ⟨⟨?_, ?_⟩, fun e he => ?_⟩
  · rintro ⟨message, he⟩
    obtain ⟨key, hk, hn, _⟩ := hfault _ he
    exact ⟨key, hk, (usingKeyName_eq_none_iff h key).1 hn⟩
  · rintro ⟨key, hk, hcond⟩
    have hn : usingKeyName h key = none := (usingKeyName_eq_none_iff h key).2 hcond
    cases hr : (extractJoinUsingColumns h (some keys) data).2 with
    | none =>
      exfalso
      by_cases hall : ∀ k ∈ keys, usingKeyName h k ≠ none
      · exact hall key hk hn
      · -- the loop cannot end without fault past an entry without name
        have : ∀ (l : List AST) (set : NameSet), (extractKeys h l set).2 = none →
            ∀ k ∈ l, usingKeyName h k ≠ none := by
          intro l
          induction l with
          | nil => intro _ _ k hk1; simp at hk1
          | cons k0 rest ih =>
            intro set hnone k hk1
            cases hk0 : usingKeyName h k0 with
            | none => rw [extractKeys_cons_none h k0 rest set hk0] at hnone; simp at hnone
            | some name =>
              rw [extractKeys_cons_some h k0 rest set name hk0] at hnone
              rcases List.mem_cons.1 hk1 with rfl | hk2
              · simp [hk0]
              · exact ih _ hnone k hk2
        exact hall (this keys data.join_using_columns hr)
    | some e =>
      obtain ⟨k, _, _, hke⟩ := hfault e hr
      exact ⟨_, by rw [hke]⟩
  · obtain ⟨k, _, _, hke⟩ := hfault e he
    exact ⟨_, hke⟩

/-- C13 at the USING list `id, f(x)`: the function without alias makes the collector throw
the logical error naming it, and the set has by then got `id`. -/
theorem C13_using_collector_failure_example :
    extractJoinUsingColumns scenarioHelpers
        (some [.Identifier (bareIdentifier "id"), .Function "f" [] ""])
        { source_columns := [], tables := ordersCustomers, join_using_columns := [],
          processAsterisks := true } =
      ({ source_columns := [], tables := ordersCustomers, join_using_columns := ["id"],
         processAsterisks := true },
        some (.exception "Logical error: expected identifier or alias, got: Function_f"
          .LOGICAL_ERROR)) :=
  rfl

theorem length_pos_max_one (l : List String) (hl : l ≠ []) : l.length = max 1 l.length := by
  cases l with
  | nil => exact absurd rfl hl
  | cons a rest => simp [Nat.max_def]

/-- What `addIdentifier` appends, in terms of the aliases registered for the column. -/
theorem addIdentifier_registered (h : Helpers) (nodes : List AST)
    (table : DatabaseAndTableWithAlias) (column_name : String)
    (aliases : Option RevertedAliases) :
    addIdentifier h nodes table column_name aliases =
      nodes ++
        (if registeredAliases aliases
            (h.getQualifiedNamePrefix table ++ "." ++ column_name) = [] then
          [qualifiedIdentifier (h.getQualifiedNamePrefix table) column_name]
        else
          (registeredAliases aliases
              (h.getQualifiedNamePrefix table ++ "." ++ column_name)).map fun a =>
            AST.Identifier
              { ASTIdentifier.ofTableAndColumn (h.getQualifiedNamePrefix table) column_name
                with alias_ := a }) := by
  unfold addIdentifier registeredAliases
  cases aliases with
  | none => simp [qualifiedIdentifier]
  | some map =>
    simp only [ASTIdentifier.ofTableAndColumn]
    cases map.lookup (h.getQualifiedNamePrefix table ++ "." ++ column_name) with
    | none => simp [qualifiedIdentifier, ASTIdentifier.ofTableAndColumn]
    | some registered =>
      simp only [addAliased_eq, Option.getD_some]
      cases registered <;> simp [qualifiedIdentifier, ASTIdentifier.ofTableAndColumn]

/-- C14 (reverse-alias emission): with `registered` the aliases the map registers under the
qualified name of the column (none when the map is absent or has no such key),
`addIdentifier` keeps the nodes already in the output and appends the single identifier
without alias when `registered` is empty, and otherwise one identifier per registered alias,
in registered order, each carrying that alias; it appends `max 1 k` nodes for `k` registered
aliases. -/
theorem C14_reverse_alias_emission (h : Helpers) (nodes : List AST)
    (table : DatabaseAndTableWithAlias) (column_name : String)
    (aliases : Option RevertedAliases) :
    addIdentifier h nodes table column_name aliases =
        nodes ++
          (if registeredAliases aliases
              (h.getQualifiedNamePrefix table ++ "." ++ column_name) = [] then
            [qualifiedIdentifier (h.getQualifiedNamePrefix table) column_name]
          else
            (registeredAliases aliases
                (h.getQualifiedNamePrefix table ++ "." ++ column_name)).map fun a =>
              AST.Identifier
                { ASTIdentifier.ofTableAndColumn (h.getQualifiedNamePrefix table) column_name
                  with alias_ := a }) ∧
      (addIdentifier h nodes table column_name aliases).length =
        nodes.length + max 1 (registeredAliases aliases
          (h.getQualifiedNamePrefix table ++ "." ++ column_name)).length := by
  refine ⟨addIdentifier_registered h nodes table column_name aliases, ?_⟩
  rw [addIdentifier_registered, List.length_append]
  congr 1
  by_cases hr : registeredAliases aliases
      (h.getQualifiedNamePrefix table ++ "." ++ column_name) = []
  · simp [hr]
  · rw [if_neg hr, List.length_map]
    exact length_pos_max_one _ hr

/-- C14 at the column `id` of `orders` with the aliases `a`, `b` registered under
`orders.id`: two identifiers `orders.id AS a`, `orders.id AS b` are appended to `x`. -/
theorem C14_reverse_alias_emission_example :
    addIdentifier scenarioHelpers [AST.Identifier (bareIdentifier "x")] (tableNamed "orders")
        "id" (some [("orders.id", ["a", "b"])]) =
      [AST.Identifier (bareIdentifier "x"),
        AST.Identifier { name := "orders.id", name_parts := ["orders", "id"], alias_ := "a",
                         membership := none, special := false },
        AST.Identifier { name := "orders.id", name_parts := ["orders", "id"], alias_ := "b",
                         membership := none, special := false }] ∧
    addIdentifier scenarioHelpers [] (tableNamed "orders") "id" (some [("orders.id", [])]) =
      [qualifiedIdentifier "orders" "id"] ∧
    addIdentifier scenarioHelpers [] (tableNamed "orders") "id" (some [("t.id", ["a"])]) =
      [qualifiedIdentifier "orders" "id"] :=
  ⟨rfl, rfl, rfl⟩


/-! ## Lemmas on the nodes the expansion makes -/

section Emitted

variable (h : Helpers) (data : Data)

/-- Every node `addIdentifier` pushes is an identifier of the table's prefix and the
column. -/
theorem mem_addIdentifier (table : DatabaseAndTableWithAlias) (column_name : String)
    (aliases : Option RevertedAliases) (node : AST)
    (hn : node ∈ addIdentifier h [] table column_name aliases) :
    ∃ identifier, node = AST.Identifier identifier ∧
      identifier.name_parts = [h.getQualifiedNamePrefix table, column_name] := by
  rw [addIdentifier_registered] at hn
  simp only [List.nil_append] at hn
  split at hn
  · simp only [List.mem_singleton] at hn
    exact ⟨_, hn, rfl⟩
  · obtain ⟨a, _, rfl⟩ := List.mem_map.1 hn
    exact ⟨_, rfl, rfl⟩

theorem filter_columnMatches_addIdentifier (pattern : String)
    (table : DatabaseAndTableWithAlias) (column_name : String)
    (aliases : Option RevertedAliases) :
    (addIdentifier h [] table column_name aliases).filter (AST.columnMatches h pattern) =
      if h.isColumnMatching pattern column_name then
        addIdentifier h [] table column_name aliases
      else [] := by
  have key : ∀ node ∈ addIdentifier h [] table column_name aliases,
      AST.columnMatches h pattern node = h.isColumnMatching pattern column_name := by
    intro node hn
    obtain ⟨identifier, rfl, hparts⟩ := mem_addIdentifier h table column_name aliases node hn
    simp [AST.columnMatches, AST.emittedColumn, hparts]
  cases hm : h.isColumnMatching pattern column_name with
  | true =>
    simp only [if_true]
    exact List.filter_eq_self.2 fun node hn => by rw [key node hn, hm]
  | false =>
    simp only [Bool.false_eq_true, if_false]
    exact List.filter_eq_nil_iff.2 fun node hn => by simp [key node hn, hm]

theorem filter_columnMatches_columns (pattern : String) (table : DatabaseAndTableWithAlias)
    (columns : Names) (aliases : Option RevertedAliases) :
    (columns.flatMap fun c => addIdentifier h [] table c aliases).filter
        (AST.columnMatches h pattern) =
      (columns.filter (h.isColumnMatching pattern)).flatMap
        fun c => addIdentifier h [] table c aliases := by
  induction columns with
  | nil => rfl
  | cons c rest ih =>
    simp only [List.flatMap_cons, List.filter_append, ih, filter_columnMatches_addIdentifier]
    cases hm : h.isColumnMatching pattern c <;> simp [List.filter, hm]

theorem matcherColumns_eq (pattern : String) (aliases : Option RevertedAliases)
    (table : DatabaseAndTableWithAlias) (first_table : Bool) (columns : Names)
    (nodes : List AST) :
    matcherColumns h data pattern aliases table first_table columns nodes =
      nodes ++ (columns.filter fun c => h.isColumnMatching pattern c &&
          (first_table || !data.join_using_columns.contains c)).flatMap
        fun c => addIdentifier h [] table c aliases := by
  induction columns generalizing nodes with
  | nil => simp [matcherColumns]
  | cons c rest ih =>
    rw [matcherColumns]
    cases hc : (h.isColumnMatching pattern c &&
        (first_table || !data.join_using_columns.contains c)) with
    | true =>
      rw [if_pos rfl, ih, addIdentifier_append]
      simp only [List.filter, hc, List.flatMap_cons, List.append_assoc]
    | false =>
      rw [if_neg (by simp), ih]
      simp only [List.filter, hc]

/-- The columns a matcher emits for one table are those of the asterisk that the pattern
accepts. -/
theorem matcherColumns_filter (pattern : String) (aliases : Option RevertedAliases)
    (table : DatabaseAndTableWithAlias) (first_table : Bool) (columns : Names) :
    matcherColumns h data pattern aliases table first_table columns [] =
      (asteriskColumns h data aliases table first_table columns []).filter
        (AST.columnMatches h pattern) := by
  rw [matcherColumns_eq, asteriskColumns_eq, List.nil_append, List.nil_append,
    filter_columnMatches_columns, List.filter_filter]

theorem matcherTables_filter (pattern : String) (aliases : Option RevertedAliases)
    (tables : List TableWithColumnNames) (first_table : Bool) :
    matcherTables h data pattern aliases tables first_table [] =
      (asteriskTables h data aliases tables first_table []).filter
        (AST.columnMatches h pattern) := by
  induction tables generalizing first_table with
  | nil => simp [matcherTables, asteriskTables]
  | cons entry rest ih =>
    obtain ⟨table, columns⟩ := entry
    rw [matcherTables, asteriskTables, matcherTables_append, asteriskTables_append,
      List.filter_append, ih false, matcherColumns_filter]

theorem hasAsterisk_matcher (pattern : String) (aliases : Option RevertedAliases)
    (rest : List AST) (hne : data.tables ≠ []) :
    hasAsterisk h data (AST.ColumnsMatcher pattern aliases :: rest) = .ok true := by
  cases ht : data.tables with
  | nil => exact absurd ht hne
  | cons entry others => simp [hasAsterisk, ht]

theorem twoPart_of_mem_columns (table : DatabaseAndTableWithAlias) (columns : Names)
    (aliases : Option RevertedAliases) (node : AST)
    (hn : node ∈ columns.flatMap fun c => addIdentifier h [] table c aliases) :
    node.isTwoPartIdentifier = true := by
  obtain ⟨c, _, hc⟩ := List.mem_flatMap.1 hn
  obtain ⟨identifier, rfl, hparts⟩ := mem_addIdentifier h table c aliases node hc
  simp [AST.isTwoPartIdentifier, hparts]

theorem twoPart_of_mem_laterTables (aliases : Option RevertedAliases)
    (tables : List TableWithColumnNames) (node : AST)
    (hn : node ∈ laterTables h data aliases tables) :
    node.isTwoPartIdentifier = true := by
  obtain ⟨entry, _, he⟩ := List.mem_flatMap.1 hn
  exact twoPart_of_mem_columns h entry.1 _ aliases node he

theorem twoPart_of_mem_asteriskTables (aliases : Option RevertedAliases) (node : AST)
    (hn : node ∈ asteriskTables h data aliases data.tables true []) :
    node.isTwoPartIdentifier = true := by
  cases ht : data.tables with
  | nil => simp [ht, asteriskTables] at hn
  | cons entry rest =>
    obtain ⟨table, columns⟩ := entry
    rw [ht, asteriskTables_true, List.nil_append] at hn
    rcases List.mem_append.1 hn with hm | hm
    · exact twoPart_of_mem_columns h table columns aliases node hm
    · exact twoPart_of_mem_laterTables h data aliases rest node hm

/-- The part a wildcard child is rewritten to holds two-part identifiers only. -/
theorem twoPart_of_mem_part (child : AST) (part : List AST)
    (hw : child.isWildcard = true) (hr : rewriteChild h data [] child = .ok part)
    (node : AST) (hn : node ∈ part) : node.isTwoPartIdentifier = true := by
  cases child with
  | Asterisk aliases =>
    simp only [rewriteChild, Except.ok.injEq] at hr
    subst hr
    exact twoPart_of_mem_asteriskTables h data aliases node hn
  | ColumnsMatcher pattern aliases =>
    simp only [rewriteChild, Except.ok.injEq] at hr
    subst hr
    rw [matcherTables_filter] at hn
    exact twoPart_of_mem_asteriskTables h data aliases node (List.mem_filter.1 hn).1
  | QualifiedAsterisk children aliases =>
    cases children with
    | nil => simp [rewriteChild] at hr
    | cons ident others =>
      simp only [rewriteChild, Except.ok.injEq] at hr
      subst hr
      rw [qualifiedTables_find] at hn
      split at hn
      · next entry _ =>
        exact twoPart_of_mem_columns h entry.1 entry.2 aliases node (by simpa using hn)
      · simp at hn
  | _ => simp [AST.isWildcard] at hw

theorem not_wildcard_of_twoPart (node : AST) (hn : node.isTwoPartIdentifier = true) :
    node.isWildcard = false := by
  cases node <;> simp_all [AST.isTwoPartIdentifier, AST.isWildcard]

/-- A successful visit with expansion enabled returns the concatenation of the parts the
children are rewritten to. -/
theorem visitExpressionList_ok_parts (children out : List AST)
    (hp : data.processAsterisks = true)
    (hv : visitExpressionList h data children = .ok out) :
    ∃ parts : List (List AST),
      List.Forall₂ (fun child part => rewriteChild h data [] child = .ok part) children parts ∧
        out = parts.flatten := by
  simp only [visitExpressionList, hp, if_true] at hv
  cases ha : hasAsterisk h data children with
  | error e => simp [ha] at hv
  | ok has_asterisk =>
    cases has_asterisk with
    | true =>
      simp only [ha, if_true] at hv
      simpa using (rewriteChildren_ok_iff h data children [] out).1 hv
    | false =>
      simp only [ha, rewriteChildren_nil, Except.ok.injEq, Bool.false_eq_true,
        if_false] at hv
      subst hv
      refine ⟨children.map fun c => [c], ?_, (flatten_map_singleton children).symm⟩
      exact (forall₂_singleton_of_no_wildcard h data children
        ((hasAsterisk_false_iff h data children).1 ha)).imp fun _ _ hr => hr.1

end Emitted

/-- C15 (a columns matcher is a filtered asterisk): on a non-empty scope with expansion
enabled, the list made of a columns matcher is rewritten to the sub-sequence of the
expansion of the plain asterisk (same scope, USING set and reverse-alias map) whose nodes
stand for a column the pattern accepts; a pattern that accepts every name gives the whole
expansion and one that accepts none gives nothing. -/
theorem C15_matcher_is_filtered_asterisk (h : Helpers) (data : Data) (pattern : String)
    (aliases : Option RevertedAliases) (hne : data.tables ≠ [])
    (hp : data.processAsterisks = true) :
    ∃ all matched,
      visitExpressionList h data [AST.Asterisk aliases] = .ok all ∧
        visitExpressionList h data [AST.ColumnsMatcher pattern aliases] = .ok matched ∧
        visitExpressionList h data [AST.ColumnsMatcher pattern aliases] =
          filteredAsterisk h data pattern aliases ∧
        matched = all.filter (AST.columnMatches h pattern) ∧
        matched.Sublist all ∧
        ((∀ c, h.isColumnMatching pattern c = true) → matched = all) ∧
        ((∀ c, h.isColumnMatching pattern c = false) → matched = []) := by
  have hall : visitExpressionList h data [AST.Asterisk aliases] =
      .ok (asteriskTables h data aliases data.tables true []) := by
    simp [visitExpressionList, hp, hasAsterisk_asterisk h data aliases [] hne, rewriteChildren,
      rewriteChild]
  have hmatched : visitExpressionList h data [AST.ColumnsMatcher pattern aliases] =
      .ok ((asteriskTables h data aliases data.tables true []).filter
        (AST.columnMatches h pattern)) := by
    simp [visitExpressionList, hp, hasAsterisk_matcher h data pattern aliases [] hne,
      rewriteChildren, rewriteChild, matcherTables_filter]
  refine ⟨_, _, hall, hmatched, ?_, rfl, List.filter_sublist _, fun hyes => ?_, fun hno => ?_⟩
  · simp [filteredAsterisk, hall, hmatched]
  · apply List.filter_eq_self.2
    intro node hn
    obtain ⟨identifier, rfl⟩ : ∃ identifier, node = AST.Identifier identifier := by
      have ht := twoPart_of_mem_asteriskTables h data aliases node hn
      cases node <;> simp_all [AST.isTwoPartIdentifier]
    have ht := twoPart_of_mem_asteriskTables h data aliases _ hn
    simp only [AST.isTwoPartIdentifier, beq_iff_eq] at ht
    match hparts : identifier.name_parts, ht with
    | [a, b], _ => simp [AST.columnMatches, AST.emittedColumn, hparts, hyes]
  · apply List.filter_eq_nil_iff.2
    intro node _
    simp only [AST.columnMatches]
    split <;> simp [hno]

/-- C15 on `orders(id, total)`, `customers(id, name)`, `USING (id)` with a pattern that
accepts the name `total` only: the asterisk gives `orders.id, orders.total, customers.name`
and the matcher `orders.total`. -/
theorem C15_matcher_is_filtered_asterisk_witness :
    visitExpressionList exactNameHelpers ordersCustomersUsingId [AST.Asterisk none] =
        .ok [qualifiedIdentifier "orders" "id", qualifiedIdentifier "orders" "total",
          qualifiedIdentifier "customers" "name"] ∧
      visitExpressionList exactNameHelpers ordersCustomersUsingId
          [AST.ColumnsMatcher "total" none] =
        .ok [qualifiedIdentifier "orders" "total"] ∧
      ∃ all matched,
        visitExpressionList exactNameHelpers ordersCustomersUsingId [AST.Asterisk none] =
            .ok all ∧
          visitExpressionList exactNameHelpers ordersCustomersUsingId
              [AST.ColumnsMatcher "total" none] = .ok matched ∧
          visitExpressionList exactNameHelpers ordersCustomersUsingId
              [AST.ColumnsMatcher "total" none] =
            filteredAsterisk exactNameHelpers ordersCustomersUsingId "total" none ∧
          matched = all.filter (AST.columnMatches exactNameHelpers "total") ∧
          matched.Sublist all ∧
          ((∀ c, exactNameHelpers.isColumnMatching "total" c = true) → matched = all) ∧
          ((∀ c, exactNameHelpers.isColumnMatching "total" c = false) → matched = []) :=
  ⟨rfl, rfl, C15_matcher_is_filtered_asterisk exactNameHelpers ordersCustomersUsingId "total"
    none (by decide) rfl⟩


/-- No wildcard is left in the concatenation of the parts of a list. -/
theorem not_wildcard_of_mem_parts (h : Helpers) (data : Data) (children : List AST)
    (parts : List (List AST))
    (hf : List.Forall₂ (fun child part => rewriteChild h data [] child = .ok part)
      children parts) :
    ∀ node ∈ parts.flatten, node.isWildcard = false := by
  induction hf with
  | nil => simp
  | @cons child part rest parts hc _ ih =>
    intro node hn
    rw [List.flatten_cons] at hn
    rcases List.mem_append.1 hn with hm | hm
    · cases hw : child.isWildcard with
      | true =>
        exact not_wildcard_of_twoPart node (twoPart_of_mem_part h data child part hw hc node hm)
      | false =>
        rw [rewriteChild_of_not_wildcard h data [] child hw] at hc
        simp only [Except.ok.injEq, List.nil_append] at hc
        subst hc
        rw [List.mem_singleton] at hm
        rw [hm, hw]
    · exact ih node hm

/-- Every node `addIdentifier` pushes is the identifier the constructor builds from the
table's prefix and the column, with some alias. -/
theorem mem_addIdentifier_exact (h : Helpers) (table : DatabaseAndTableWithAlias)
    (column_name : String) (aliases : Option RevertedAliases) (node : AST)
    (hn : node ∈ addIdentifier h [] table column_name aliases) :
    ∃ alias_ : String, node = AST.Identifier
      { ASTIdentifier.ofTableAndColumn (h.getQualifiedNamePrefix table) column_name
        with alias_ := alias_ } := by
  rw [addIdentifier_registered] at hn
  simp only [List.nil_append] at hn
  split at hn
  · simp only [List.mem_singleton] at hn
    exact ⟨"", hn⟩
  · obtain ⟨a, _, rfl⟩ := List.mem_map.1 hn
    exact ⟨a, rfl⟩

theorem columnOfScope_of_mem_columns (h : Helpers) (data : Data)
    (entry : TableWithColumnNames) (he : entry ∈ data.tables) (columns : Names)
    (hsub : ∀ c ∈ columns, c ∈ entry.2) (aliases : Option RevertedAliases) (node : AST)
    (hn : node ∈ columns.flatMap fun c => addIdentifier h [] entry.1 c aliases) :
    node.IsColumnOfScope h data := by
  obtain ⟨c, hc, hm⟩ := List.mem_flatMap.1 hn
  obtain ⟨alias_, rfl⟩ := mem_addIdentifier_exact h entry.1 c aliases node hm
  exact ⟨entry, he, c, hsub c hc, alias_, rfl⟩

theorem columnOfScope_of_mem_laterTables (h : Helpers) (data : Data)
    (aliases : Option RevertedAliases) (tables : List TableWithColumnNames)
    (hsub : ∀ entry ∈ tables, entry ∈ data.tables) (node : AST)
    (hn : node ∈ laterTables h data aliases tables) :
    node.IsColumnOfScope h data := by
  obtain ⟨entry, he, hm⟩ := List.mem_flatMap.1 hn
  exact columnOfScope_of_mem_columns h data entry (hsub entry he) _
    (fun c hc => (List.mem_filter.1 hc).1) aliases node hm

theorem columnOfScope_of_mem_asteriskTables (h : Helpers) (data : Data)
    (aliases : Option RevertedAliases) (node : AST)
    (hn : node ∈ asteriskTables h data aliases data.tables true []) :
    node.IsColumnOfScope h data := by
  cases ht : data.tables with
  | nil => simp [ht, asteriskTables] at hn
  | cons entry rest =>
    obtain ⟨table, columns⟩ := entry
    rw [ht, asteriskTables_true, List.nil_append] at hn
    rcases List.mem_append.1 hn with hm | hm
    · exact columnOfScope_of_mem_columns h data (table, columns) (by simp [ht]) columns
        (fun c hc => hc) aliases node hm
    · exact columnOfScope_of_mem_laterTables h data aliases rest
        (fun e hmem => by simp [ht, hmem]) node hm

/-- The part a wildcard child is rewritten to holds, for columns of tables of the scope
only, the identifiers made of the table's prefix and the column name. -/
theorem columnOfScope_of_mem_part (h : Helpers) (data : Data) (child : AST) (part : List AST)
    (hw : child.isWildcard = true) (hr : rewriteChild h data [] child = .ok part)
    (node : AST) (hn : node ∈ part) : node.IsColumnOfScope h data := by
  cases child with
  | Asterisk aliases =>
    simp only [rewriteChild, Except.ok.injEq] at hr
    subst hr
    exact columnOfScope_of_mem_asteriskTables h data aliases node hn
  | ColumnsMatcher pattern aliases =>
    simp only [rewriteChild, Except.ok.injEq] at hr
    subst hr
    rw [matcherTables_filter] at hn
    exact columnOfScope_of_mem_asteriskTables h data aliases node (List.mem_filter.1 hn).1
  | QualifiedAsterisk children aliases =>
    cases children with
    | nil => simp [rewriteChild] at hr
    | cons ident others =>
      simp only [rewriteChild, Except.ok.injEq] at hr
      subst hr
      rw [qualifiedTables_find] at hn
      split at hn
      · next entry hfind =>
        exact columnOfScope_of_mem_columns h data entry (List.mem_of_find?_eq_some hfind)
          entry.2 (fun c hc => hc) aliases node (by simpa using hn)
      · simp at hn
  | _ => simp [AST.isWildcard] at hw

/-- C16 (all wildcards are expanded): when the visit of a list succeeds with expansion
enabled, no child of the result is an asterisk, a columns matcher or a qualified asterisk;
the result is the concatenation of one part per child, where the part of another child than
a wildcard is the child itself and every node in the part of a wildcard child is the
identifier built from exactly two name parts, the prefix of a table of the scope and the
name of a column of that table (with or without an alias). -/
theorem C16_all_wildcards_expanded (h : Helpers) (data : Data) (children out : List AST)
    (hp : data.processAsterisks = true)
    (hv : visitExpressionList h data children = .ok out) :
    (∀ node ∈ out, node.isWildcard = false) ∧
      ∃ parts : List (List AST),
        List.Forall₂ (fun child part =>
            (child.isWildcard = true → ∀ node ∈ part,
              node.isTwoPartIdentifier = true ∧
                ∃ entry ∈ data.tables, ∃ column_name ∈ entry.2, ∃ alias_ : String,
                  node = AST.Identifier
                    { name := h.getQualifiedNamePrefix entry.1 ++ "." ++ column_name
                      name_parts := [h.getQualifiedNamePrefix entry.1, column_name]
                      alias_ := alias_
                      membership := none
                      special := false }) ∧
              (child.isWildcard = false → part = [child])) children parts ∧
          out = parts.flatten := by
  obtain ⟨parts, hf, rfl⟩ := visitExpressionList_ok_parts h data children out hp hv
  refine ⟨not_wildcard_of_mem_parts h data children parts hf, parts, ?_, rfl⟩
  refine hf.imp fun child part hr => ⟨fun hw node hn => ⟨?_, ?_⟩, fun hw => ?_⟩
  · exact twoPart_of_mem_part h data child part hw hr node hn
  · exact columnOfScope_of_mem_part h data child part hw hr node hn
  · rw [rewriteChild_of_not_wildcard h data [] child hw] at hr
    simpa using hr.symm

/-- C16 at the list `x, *, o.*` on the scope `orders` alias `o` `(id, total)`: the result is
`x, o.id, o.total, o.id, o.total`, without wildcard, every new node an identifier of the
prefix `o` and a column of `orders`. -/
theorem C16_all_wildcards_expanded_witness :
    visitExpressionList scenarioHelpers ordersAliased listWithTwoWildcards =
      .ok listWithTwoWildcardsExpanded ∧
    (∀ node ∈ listWithTwoWildcardsExpanded, node.isWildcard = false) ∧
    ∃ parts : List (List AST),
      List.Forall₂ (fun child part =>
          (child.isWildcard = true → ∀ node ∈ part,
            node.isTwoPartIdentifier = true ∧
              ∃ entry ∈ ordersAliased.tables, ∃ column_name ∈ entry.2, ∃ alias_ : String,
                node = AST.Identifier
                  { name := scenarioHelpers.getQualifiedNamePrefix entry.1 ++ "." ++
                      column_name
                    name_parts := [scenarioHelpers.getQualifiedNamePrefix entry.1, column_name]
                    alias_ := alias_
                    membership := none
                    special := false }) ∧
            (child.isWildcard = false → part = [child])) listWithTwoWildcards parts ∧
        listWithTwoWildcardsExpanded = parts.flatten :=
  ⟨rfl, C16_all_wildcards_expanded scenarioHelpers ordersAliased listWithTwoWildcards
    listWithTwoWildcardsExpanded rfl rfl⟩

/-! ## The visit with the children followed up to a fault -/

theorem rewriteChildrenState_spec (h : Helpers) (data : Data) (children nodes : List AST) :
    rewriteChildren h data children nodes =
      match (rewriteChildrenState h data children nodes).2 with
      | none => .ok (rewriteChildrenState h data children nodes).1
      | some e => .error e := by
  induction children generalizing nodes with
  | nil => rfl
  | cons child rest ih =>
    rw [rewriteChildren, rewriteChildrenState]
    cases rewriteChild h data nodes child with
    | error e => rfl
    | ok nodes1 => exact ih nodes1

/-- The two descriptions of the visit agree: the result is the final children when there is
no fault, and the fault otherwise. -/
theorem visitExpressionListState_spec (h : Helpers) (data : Data) (children : List AST) :
    visitExpressionList h data children =
      match (visitExpressionListState h data children).2 with
      | none => .ok (visitExpressionListState h data children).1
      | some e => .error e := by
  unfold visitExpressionList visitExpressionListState
  cases data.processAsterisks with
  | false => exact rewriteChildrenState_spec h data [] children
  | true =>
    simp only [if_true]
    cases hasAsterisk h data children with
    | error e => rfl
    | ok has_asterisk =>
      cases has_asterisk with
      | true => exact rewriteChildrenState_spec h data children []
      | false => exact rewriteChildrenState_spec h data [] children

theorem visitQualifiedAsterisk_error_code (h : Helpers) (data : Data) (children : List AST)
    (e : Fault) (he : visitQualifiedAsterisk h data children = .error e) :
    ∃ message code, e = .exception message code ∧
      (code = .LOGICAL_ERROR ∨ code = .UNKNOWN_IDENTIFIER) := by
  match children with
  | [] =>
    simp only [visitQualifiedAsterisk, Except.error.injEq] at he
    exact ⟨_, _, he.symm, Or.inl rfl⟩
  | [ident] =>
    simp only [visitQualifiedAsterisk] at he
    by_cases hs : (data.tables.any fun known_table => h.satisfies ident known_table.1) = true
    · simp [hs] at he
    · simp only [hs, Bool.false_eq_true, if_false, Except.error.injEq] at he
      exact ⟨_, _, he.symm, Or.inr rfl⟩
  | _ :: _ :: _ =>
    simp only [visitQualifiedAsterisk, Except.error.injEq] at he
    exact ⟨_, _, he.symm, Or.inl rfl⟩

/-- The faults of the first loop are exceptions with the logical-error or the
unknown-identifier code. -/
theorem hasAsterisk_error_code (h : Helpers) (data : Data) (children : List AST) (e : Fault)
    (he : hasAsterisk h data children = .error e) :
    ∃ message code, e = .exception message code ∧
      (code = .LOGICAL_ERROR ∨ code = .UNKNOWN_IDENTIFIER) := by
  induction children with
  | nil => simp [hasAsterisk] at he
  | cons child rest ih =>
    cases child with
    | Asterisk aliases =>
      simp only [hasAsterisk] at he
      by_cases ht : data.tables.isEmpty = true
      · simp only [ht, if_true, Except.error.injEq] at he
        exact ⟨_, _, he.symm, Or.inl rfl⟩
      · simp [ht] at he
    | ColumnsMatcher pattern aliases =>
      simp only [hasAsterisk] at he
      by_cases ht : data.tables.isEmpty = true
      · simp only [ht, if_true, Except.error.injEq] at he
        exact ⟨_, _, he.symm, Or.inl rfl⟩
      · simp [ht] at he
    | QualifiedAsterisk qchildren aliases =>
      simp only [hasAsterisk] at he
      cases hq : visitQualifiedAsterisk h data qchildren with
      | ok u => simp [hq] at he
      | error e1 =>
        simp only [hq, Except.error.injEq] at he
        subst he
        exact visitQualifiedAsterisk_error_code h data qchildren _ hq
    | _ =>
      simp only [hasAsterisk] at he
      exact ih he

/-- The second loop throws no exception. -/
theorem rewriteChildrenState_fault (h : Helpers) (data : Data) (children nodes : List AST)
    (e : Fault) (he : (rewriteChildrenState h data children nodes).2 = some e) :
    e = .outOfBounds := by
  induction children generalizing nodes with
  | nil => simp [rewriteChildrenState] at he
  | cons child rest ih =>
    rw [rewriteChildrenState] at he
    cases hr : rewriteChild h data nodes child with
    | ok nodes1 =>
      rw [hr] at he
      exact ih nodes1 he
    | error e1 =>
      rw [hr] at he
      simp only [Option.some.injEq] at he
      subst he
      cases child with
      | QualifiedAsterisk children aliases =>
        cases children with
        | nil => simpa [rewriteChild] using hr.symm
        | cons ident others => simp [rewriteChild] at hr
      | _ => simp [rewriteChild] at hr

/-- Whenever the visit of a list throws an exception, the children of the list at that
point are exactly the children before the call, and the exception is one of the check
before the rewrite (logical error or unknown identifier). -/
theorem exception_keeps_children (h : Helpers) (data : Data) (children : List AST)
    (message : String) (code : ErrorCode)
    (hf : visitExpressionList h data children = .error (.exception message code)) :
    visitExpressionListState h data children = (children, some (.exception message code)) ∧
      (code = .LOGICAL_ERROR ∨ code = .UNKNOWN_IDENTIFIER) := by
  have hstate : (visitExpressionListState h data children).2 =
      some (.exception message code) := by
    rw [visitExpressionListState_spec] at hf
    cases hs : (visitExpressionListState h data children).2 with
    | none => simp [hs] at hf
    | some e =>
      simp only [hs, Except.error.injEq] at hf
      rw [hf]
  have hloop : ∀ l nodes, (rewriteChildrenState h data l nodes).2 ≠
      some (.exception message code) := by
    intro l nodes hc
    have := rewriteChildrenState_fault h data l nodes _ hc
    exact Fault.noConfusion this
  unfold visitExpressionListState at hstate ⊢
  cases hp : data.processAsterisks with
  | false =>
    simp only [hp, Bool.false_eq_true, if_false] at hstate
    exact absurd hstate (hloop _ _)
  | true =>
    simp only [hp, if_true] at hstate ⊢
    cases ha : hasAsterisk h data children with
    | ok has_asterisk =>
      simp only [ha] at hstate
      cases has_asterisk with
      | true => exact absurd hstate (hloop _ _)
      | false => exact absurd hstate (hloop _ _)
    | error e =>
      simp only [ha, Option.some.injEq] at hstate
      subst hstate
      obtain ⟨message1, code1, he, hcode⟩ := hasAsterisk_error_code h data children _ ha
      simp only [Fault.exception.injEq] at he
      rw [he.2]
      exact ⟨rfl, hcode⟩

/-- At the scenario with empty scope and list `*`, the visit throws and the list is still
`*`. -/
theorem exception_keeps_children_example :
    visitExpressionListState scenarioHelpers
        { source_columns := [], tables := [], join_using_columns := [],
          processAsterisks := true } [AST.Asterisk none] =
      ([AST.Asterisk none],
        some (.exception "An asterisk cannot be replaced with empty columns."
          .LOGICAL_ERROR)) :=
  (exception_keeps_children scenarioHelpers
    { source_columns := [], tables := [], join_using_columns := [], processAsterisks := true }
    [AST.Asterisk none] "An asterisk cannot be replaced with empty columns." .LOGICAL_ERROR
    rfl).1

/-- C17, the code at the failing input, on the scope `t(a)`: the visit of the list `x, *,
<qualified asterisk without child>` fails, and it fails in the rewriting loop, at the access
to child 0 of the malformed qualified asterisk, when the children of the list have already
been replaced by `x, t.a`; the three children of before the call are gone. The same
malformed qualified asterisk as first wildcard is rejected with the list untouched. -/
theorem C17_failure_after_rewrite :
    visitExpressionList scenarioHelpers
        { source_columns := ["a"], tables := [(tableNamed "t", ["a"])],
          join_using_columns := [], processAsterisks := true }
        [AST.Identifier (bareIdentifier "x"), AST.Asterisk none,
          AST.QualifiedAsterisk [] none] =
      .error .outOfBounds ∧
    visitExpressionListState scenarioHelpers
        { source_columns := ["a"], tables := [(tableNamed "t", ["a"])],
          join_using_columns := [], processAsterisks := true }
        [AST.Identifier (bareIdentifier "x"), AST.Asterisk none,
          AST.QualifiedAsterisk [] none] =
      ([AST.Identifier (bareIdentifier "x"), qualifiedIdentifier "t" "a"],
        some .outOfBounds) ∧
    [AST.Identifier (bareIdentifier "x"), qualifiedIdentifier "t" "a"] ≠
      [AST.Identifier (bareIdentifier "x"), AST.Asterisk none,
        AST.QualifiedAsterisk [] none] ∧
    visitExpressionListState scenarioHelpers
        { source_columns := ["a"], tables := [(tableNamed "t", ["a"])],
          join_using_columns := [], processAsterisks := true }
        [AST.Identifier (bareIdentifier "x"), AST.QualifiedAsterisk [] none,
          AST.Asterisk none] =
      ([AST.Identifier (bareIdentifier "x"), AST.QualifiedAsterisk [] none,
          AST.Asterisk none],
        some (.exception "Logical error: qualified asterisk must have exactly one child"
          .LOGICAL_ERROR)) :=
  ⟨rfl, rfl, fun heq => by simpa using congrArg List.length heq, rfl⟩


/-- C18, the code at the failing inputs, on the scope `t(a)`. The list `*, <qualified
asterisk without child>` passes the check before the rewrite and reaches the access to child
0 of the qualified asterisk, out of bounds, after `t.a` has been pushed; the list `*,
<qualified asterisk with the two children t, zz>` is rewritten successfully from child 0.
The same qualified asterisks alone are rejected with the logical error. -/
theorem C18_malformed_qualified_asterisk_not_rejected :
    visitExpressionListState scenarioHelpers
        { source_columns := ["a"], tables := [(tableNamed "t", ["a"])],
          join_using_columns := [], processAsterisks := true }
        [AST.Asterisk none, AST.QualifiedAsterisk [] none] =
      ([qualifiedIdentifier "t" "a"], some .outOfBounds) ∧
    visitExpressionList scenarioHelpers
        { source_columns := ["a"], tables := [(tableNamed "t", ["a"])],
          join_using_columns := [], processAsterisks := true }
        [AST.Asterisk none,
          AST.QualifiedAsterisk
            [.Identifier (bareIdentifier "t"), .Identifier (bareIdentifier "zz")] none] =
      .ok [qualifiedIdentifier "t" "a", qualifiedIdentifier "t" "a"] ∧
    visitExpressionList scenarioHelpers
        { source_columns := ["a"], tables := [(tableNamed "t", ["a"])],
          join_using_columns := [], processAsterisks := true }
        [AST.QualifiedAsterisk [] none] =
      .error (.exception "Logical error: qualified asterisk must have exactly one child"
        .LOGICAL_ERROR) ∧
    visitExpressionList scenarioHelpers
        { source_columns := ["a"], tables := [(tableNamed "t", ["a"])],
          join_using_columns := [], processAsterisks := true }
        [AST.QualifiedAsterisk
          [.Identifier (bareIdentifier "t"), .Identifier (bareIdentifier "zz")] none] =
      .error (.exception "Logical error: qualified asterisk must have exactly one child"
        .LOGICAL_ERROR) :=
  ⟨rfl, rfl, rfl, rfl⟩

/-- C19 fails as stated: for the parent `t.*` (a qualified asterisk) and its child, the
identifier `t`, which is neither a table expression nor a select-with-union node,
`needChildVisit` answers false; likewise for a join and its ON expression. -/
theorem C19_need_child_visit_counterexample :
    needChildVisit (qualifiedAsterisk "t") (.Identifier (bareIdentifier "t")) = false ∧
      needChildVisit (.TableJoin none (some (.Identifier (bareIdentifier "x"))))
        (.Identifier (bareIdentifier "x")) = false ∧
      ¬ (∀ node child : AST, needChildVisit node child = false ↔
        (child = .TableExpression ∨ child = .SelectWithUnionQuery)) := by
  refine ⟨rfl, rfl, fun hall => ?_⟩
  have hfalse : needChildVisit (qualifiedAsterisk "t") (.Identifier (bareIdentifier "t")) =
      false := rfl
  rcases (hall _ _).1 hfalse with hc | hc <;> exact AST.noConfusion hc

/-- C19 as amended: `needChildVisit` answers false exactly when the child is a table
expression or a select-with-union node, or the parent is a qualified asterisk or a join; in
every other case it answers true. -/
theorem C19_need_child_visit_amended (node child : AST) :
    (needChildVisit node child = false ↔
        (child = .TableExpression ∨ child = .SelectWithUnionQuery ∨
          (∃ children aliases, node = .QualifiedAsterisk children aliases) ∨
          ∃ using_expression_list on_expression,
            node = .TableJoin using_expression_list on_expression)) ∧
      (needChildVisit node child = true ↔
        ¬ (child = .TableExpression ∨ child = .SelectWithUnionQuery ∨
          (∃ children aliases, node = .QualifiedAsterisk children aliases) ∨
          ∃ using_expression_list on_expression,
            node = .TableJoin using_expression_list on_expression)) := by
  have hfalse : needChildVisit node child = false ↔
      (child = .TableExpression ∨ child = .SelectWithUnionQuery ∨
        (∃ children aliases, node = .QualifiedAsterisk children aliases) ∨
        ∃ using_expression_list on_expression,
          node = .TableJoin using_expression_list on_expression) := by
    cases child <;> cases node <;> simp [needChildVisit]
  refine ⟨hfalse, ?_⟩
  rw [← hfalse]
  cases needChildVisit node child <;> simp

/-- C20 (restoration clones instead of mutating): `RestoreQualifiedNamesData::visit` gives
the slot a new node exactly when the identifier denotes a column and has a recorded table
membership; the new node is the clone with its compound name restored; otherwise the slot
keeps its node; in every case the identifier node itself is as it was. -/
theorem C20_restoration_clones (h : Helpers) (identifier : ASTIdentifier) (ast : AST) :
    ((RestoreQualifiedNamesData.visit h identifier ast).replaced = true ↔
        ((h.getColumnName identifier).isSome = true ∧
          (getMembership identifier).isSome = true)) ∧
      ((RestoreQualifiedNamesData.visit h identifier ast).replaced = true →
        (RestoreQualifiedNamesData.visit h identifier ast).ast =
          .Identifier (h.restoreCompoundName identifier)) ∧
      ((RestoreQualifiedNamesData.visit h identifier ast).replaced = false →
        (RestoreQualifiedNamesData.visit h identifier ast).ast = ast) ∧
      (RestoreQualifiedNamesData.visit h identifier ast).identifier = identifier := by
  unfold RestoreQualifiedNamesData.visit
  cases h.getColumnName identifier with
  | none => simp
  | some column_name =>
    cases getMembership identifier with
    | none => simp
    | some table_pos => simp

/-- C20 at the identifier `customers.id` shown as `id` with membership 1, which is replaced
by a clone named `customers.id`, and at the same identifier without membership, which stays
in its slot. -/
theorem C20_restoration_clones_example :
    RestoreQualifiedNamesData.visit scenarioHelpers
        { name := "id", name_parts := ["customers", "id"], alias_ := "", membership := some 1,
          special := false }
        (.Identifier { name := "id", name_parts := ["customers", "id"], alias_ := "",
                       membership := some 1, special := false }) =
      { identifier := { name := "id", name_parts := ["customers", "id"], alias_ := "",
                        membership := some 1, special := false }
        ast := .Identifier { name := "customers.id", name_parts := ["customers", "id"],
                             alias_ := "", membership := some 1, special := false }
        replaced := true } ∧
    RestoreQualifiedNamesData.visit scenarioHelpers
        { name := "id", name_parts := ["customers", "id"], alias_ := "", membership := none,
          special := false }
        (.Identifier { name := "id", name_parts := ["customers", "id"], alias_ := "",
                       membership := none, special := false }) =
      { identifier := { name := "id", name_parts := ["customers", "id"], alias_ := "",
                        membership := none, special := false }
        ast := .Identifier { name := "id", name_parts := ["customers", "id"], alias_ := "",
                             membership := none, special := false }
        replaced := false } :=
  ⟨rfl, rfl⟩


/-! ## The last claims -/

/-- C21 (unresolved references are left untouched): if the identifier does not denote a
column reference, or table selection reports no table for it, the visit completes and
leaves the identifier node as it was (membership, name and name parts included); and
whenever the visit completes, the context (scope, USING set, source columns, expansion
flag) is as before and the tree slot has not been given another node; and the visit
completes whenever table selection answers positions of the scope only. -/
theorem C21_unresolved_untouched (h : Helpers) (data : Data) (identifier : ASTIdentifier) :
    ((h.getColumnName identifier = none ∨
          h.chooseTable identifier data.tables
            (data.join_using_columns.contains (h.shortName identifier)) = none) →
        visitIdentifierState h data identifier =
          .ok { identifier := identifier, data := data, replaced := false }) ∧
      (∀ state, visitIdentifierState h data identifier = .ok state →
        state.data = data ∧ state.replaced = false) ∧
      ((∀ table_pos, h.chooseTable identifier data.tables
            (data.join_using_columns.contains (h.shortName identifier)) = some table_pos →
          table_pos < data.tables.length) →
        ∃ state, visitIdentifierState h data identifier = .ok state) := by
  refine ⟨?_, ?_, ?_⟩
  · intro hun
    unfold visitIdentifierState visitIdentifier
    cases hc : h.getColumnName identifier with
    | none => rfl
    | some column_name =>
      rcases hun with hun | hun
      · rw [hc] at hun
        exact Option.noConfusion hun
      · simp only [hun]
  · intro state hs
    unfold visitIdentifierState at hs
    cases hv : visitIdentifier h data identifier with
    | error e => simp [hv] at hs
    | ok identifier1 =>
      simp only [hv, Except.ok.injEq] at hs
      subst hs
      exact ⟨rfl, rfl⟩
  · intro hpos
    have hcomplete : ∃ identifier1, visitIdentifier h data identifier = .ok identifier1 := by
      cases hc : h.getColumnName identifier with
      | none => exact ⟨identifier, by simp only [visitIdentifier, hc]⟩
      | some column_name =>
        cases hs : h.chooseTable identifier data.tables
            (data.join_using_columns.contains (h.shortName identifier)) with
        | none => exact ⟨identifier, by simp only [visitIdentifier, hc, hs]⟩
        | some table_pos =>
          have hlt := hpos table_pos hs
          simp only [visitIdentifier, hc, hs, List.get?_eq_getElem?,
            List.getElem?_eq_getElem hlt]
          split <;> exact ⟨_, rfl⟩
    obtain ⟨identifier1, hv⟩ := hcomplete
    exact ⟨{ identifier := identifier1, data := data, replaced := false },
      by simp only [visitIdentifierState, hv]⟩

/-- C21 on `orders(id, total)`, `customers(id, name)` without USING: the bare `id` is in
both tables, so no table is selected, and the bare `zz` is in none; both stay as they were,
and so does an identifier that is not a column reference. -/
theorem C21_unresolved_untouched_witness :
    visitIdentifierState scenarioHelpers
        { source_columns := ["id", "total"], tables := ordersCustomers,
          join_using_columns := [], processAsterisks := true } (bareIdentifier "id") =
      .ok { identifier := bareIdentifier "id",
            data := { source_columns := ["id", "total"], tables := ordersCustomers,
                      join_using_columns := [], processAsterisks := true },
            replaced := false } ∧
    visitIdentifierState scenarioHelpers
        { source_columns := ["id", "total"], tables := ordersCustomers,
          join_using_columns := [], processAsterisks := true } (bareIdentifier "zz") =
      .ok { identifier := bareIdentifier "zz",
            data := { source_columns := ["id", "total"], tables := ordersCustomers,
                      join_using_columns := [], processAsterisks := true },
            replaced := false } ∧
    visitIdentifierState scenarioHelpers
        { source_columns := ["id", "total"], tables := ordersCustomers,
          join_using_columns := [], processAsterisks := true }
        { name := "total", name_parts := [], alias_ := "", membership := none,
          special := true } =
      .ok { identifier := { name := "total", name_parts := [], alias_ := "",
                            membership := none, special := true },
            data := { source_columns := ["id", "total"], tables := ordersCustomers,
                      join_using_columns := [], processAsterisks := true },
            replaced := false } :=
  ⟨(C21_unresolved_untouched scenarioHelpers
      { source_columns := ["id", "total"], tables := ordersCustomers,
        join_using_columns := [], processAsterisks := true } (bareIdentifier "id")).1
      (Or.inr rfl),
    (C21_unresolved_untouched scenarioHelpers
      { source_columns := ["id", "total"], tables := ordersCustomers,
        join_using_columns := [], processAsterisks := true } (bareIdentifier "zz")).1
      (Or.inr rfl),
    (C21_unresolved_untouched scenarioHelpers
      { source_columns := ["id", "total"], tables := ordersCustomers,
        join_using_columns := [], processAsterisks := true }
      { name := "total", name_parts := [], alias_ := "", membership := none,
        special := true }).1
      (Or.inl rfl)⟩

/-- C23 (expansion is idempotent): with expansion enabled, when the visit of a list
succeeds, the visit of the result with the same context succeeds and returns the result
unchanged. -/
theorem C23_expansion_idempotent (h : Helpers) (data : Data) (children out : List AST)
    (hp : data.processAsterisks = true)
    (hv : visitExpressionList h data children = .ok out) :
    visitExpressionList h data out = .ok out := by
  obtain ⟨parts, hf, rfl⟩ := visitExpressionList_ok_parts h data children out hp hv
  have hno := not_wildcard_of_mem_parts h data children parts hf
  simp [visitExpressionList, hp, (hasAsterisk_false_iff h data parts.flatten).2 hno,
    rewriteChildren_nil]

/-- C23 on `orders(id, total)`, `customers(id, name)`, `USING (id)` and the list `x, *`:
the expansion `x, orders.id, orders.total, customers.name` is rewritten to itself. -/
theorem C23_expansion_idempotent_witness :
    visitExpressionList scenarioHelpers ordersCustomersUsingId
        [AST.Identifier (bareIdentifier "x"), AST.Asterisk none] =
      .ok [AST.Identifier (bareIdentifier "x"), qualifiedIdentifier "orders" "id",
        qualifiedIdentifier "orders" "total", qualifiedIdentifier "customers" "name"] ∧
    visitExpressionList scenarioHelpers ordersCustomersUsingId
        [AST.Identifier (bareIdentifier "x"), qualifiedIdentifier "orders" "id",
          qualifiedIdentifier "orders" "total", qualifiedIdentifier "customers" "name"] =
      .ok [AST.Identifier (bareIdentifier "x"), qualifiedIdentifier "orders" "id",
        qualifiedIdentifier "orders" "total", qualifiedIdentifier "customers" "name"] :=
  ⟨rfl, C23_expansion_idempotent scenarioHelpers ordersCustomersUsingId
    [AST.Identifier (bareIdentifier "x"), AST.Asterisk none]
    [AST.Identifier (bareIdentifier "x"), qualifiedIdentifier "orders" "id",
      qualifiedIdentifier "orders" "total", qualifiedIdentifier "customers" "name"]
    rfl rfl⟩


/-! ## The clearable hash map -/

/-- The version after `n` calls of `clear()` on a new table. -/
theorem version_clearTimes_initial (n : Nat) :
    (ClearableHashMap.clearTimes n ClearableHashMap.initial).state.version =
      (n + 1) % UInt32.modulus := by
  induction n with
  | zero => rfl
  | succ n ih =>
    simp only [ClearableHashMap.clearTimes, ClearableHashMap.clear, ih, UInt32.modulus]
    omega

/-- A cell on which `setZero()` was called is empty for a state exactly when the version of
the state is not 0. -/
theorem isZero_setZero_iff {Key Mapped : Type} (cell : ClearableHashMapCell Key Mapped)
    (state : ClearableHashMapState) :
    cell.setZero.isZero state = true ↔ state.version ≠ 0 := by
  simp only [ClearableHashMapCell.isZero, ClearableHashMapCell.setZero, bne_iff_ne, ne_eq]
  exact ⟨fun hne heq => hne heq.symm, fun hne heq => hne heq.symm⟩

/-- C22 (`clear` empties the table): for a table with version `v`, after `clear()` the size
is 0, the version is `v + 1` modulo `2^32` (a `UInt32` value again), every cell stamped with
`v` is empty for the new state, and a cell constructed from the new state is not. -/
theorem C22_clear_empties_table {Key Mapped : Type} [Inhabited Mapped]
    (table : ClearableHashMap) (cell : ClearableHashMapCell Key Mapped) (key : Key)
    (value : Key × Mapped) :
    table.clear.m_size = 0 ∧
      table.clear.state.version = (table.state.version + 1) % UInt32.modulus ∧
      table.clear.state.version < UInt32.modulus ∧
      (cell.version = table.state.version → cell.isZero table.clear.state = true) ∧
      (ClearableHashMapCell.ofKey key table.clear.state :
          ClearableHashMapCell Key Mapped).isZero table.clear.state = false ∧
      (ClearableHashMapCell.ofValue value table.clear.state).isZero table.clear.state =
        false := by
  refine ⟨rfl, rfl, ?_, ?_, ?_, ?_⟩
  · simp only [ClearableHashMap.clear, UInt32.modulus]
    omega
  · intro hc
    simp only [ClearableHashMapCell.isZero, ClearableHashMap.clear, bne_iff_ne, ne_eq, hc]
    simp only [UInt32.modulus]
    omega
  · simp [ClearableHashMapCell.isZero, ClearableHashMapCell.ofKey]
  · simp [ClearableHashMapCell.isZero, ClearableHashMapCell.ofValue]

/-- C22 at the largest version: the table with version `2^32 - 1` and 7 elements gets
version 0 and size 0, and a cell stamped `2^32 - 1` is empty afterwards. -/
theorem C22_clear_empties_table_witness :
    (ClearableHashMap.clear { state := { version := 4294967295 }, m_size := 7 }) =
        { state := { version := 0 }, m_size := 0 } ∧
      (ClearableHashMapCell.isZero
        ({ value := ("k", 5), version := 4294967295 } : ClearableHashMapCell String Nat)
        (ClearableHashMap.clear
          { state := { version := 4294967295 }, m_size := 7 }).state) = true :=
  ⟨by decide,
    (C22_clear_empties_table { state := { version := 4294967295 }, m_size := 7 }
      ({ value := ("k", 5), version := 4294967295 } : ClearableHashMapCell String Nat)
      "k" ("k", 5)).2.2.2.1 rfl⟩

/-- C24, the code at the failing input: after `2^32 - 1` calls of `clear()` on a new table
the version has wrapped to 0, the stamp that `setZero()` gives, and a cell on which
`setZero()` was called is then reported as not empty. -/
theorem C24_zeroed_cell_not_empty_after_wrap :
    (ClearableHashMap.clearTimes 4294967295 ClearableHashMap.initial).state.version = 0 ∧
      (ClearableHashMapCell.setZero
          (ClearableHashMapCell.ofKey "k" ClearableHashMap.initial.state :
            ClearableHashMapCell String Nat)).isZero
        (ClearableHashMap.clearTimes 4294967295 ClearableHashMap.initial).state = false := by
  have hversion :
      (ClearableHashMap.clearTimes 4294967295 ClearableHashMap.initial).state.version = 0 := by
    rw [version_clearTimes_initial]
    decide
  refine ⟨hversion, ?_⟩
  rw [← Bool.not_eq_true, isZero_setZero_iff]
  exact fun hne => hne hversion

/-- For the state reached from a new table by `n` calls of `clear()`, where `n + 1` is not a
multiple of `2^32` (so for every `n` below `2^32 - 1`), the version is `n + 1` modulo
`2^32`, not 0, and a cell on which `setZero()` was called is empty. -/
theorem zeroed_cell_empty_before_wrap {Key Mapped : Type} (n : Nat)
    (cell : ClearableHashMapCell Key Mapped) (hn : (n + 1) % UInt32.modulus ≠ 0) :
    cell.setZero.isZero (ClearableHashMap.clearTimes n ClearableHashMap.initial).state =
        true ∧
      (ClearableHashMap.clearTimes n ClearableHashMap.initial).state.version =
        (n + 1) % UInt32.modulus ∧
      (n < UInt32.modulus - 1 → (n + 1) % UInt32.modulus ≠ 0) := by
  refine ⟨?_, version_clearTimes_initial n, ?_⟩
  · rw [isZero_setZero_iff, version_clearTimes_initial]
    exact hn
  · simp only [UInt32.modulus]
    omega

/-- After three calls of `clear()` the version is 4 and a zeroed cell is empty. -/
theorem zeroed_cell_empty_before_wrap_example :
    (ClearableHashMapCell.setZero
        ({ value := ("k", 5), version := 4 } : ClearableHashMapCell String Nat)).isZero
      (ClearableHashMap.clearTimes 3 ClearableHashMap.initial).state = true ∧
    (ClearableHashMap.clearTimes 3 ClearableHashMap.initial).state.version = 4 :=
  ⟨(zeroed_cell_empty_before_wrap 3
      ({ value := ("k", 5), version := 4 } : ClearableHashMapCell String Nat)
      (by decide)).1,
    (zeroed_cell_empty_before_wrap 3
      ({ value := ("k", 5), version := 4 } : ClearableHashMapCell String Nat)
      (by decide)).2.1⟩


end DB
